import Mathlib

/-!
Verification development for the public-comment extraction agent
(`ai_minutes_agent.py`).  The Python source is shallowly embedded: every
regular expression of the source is hand-translated into an executable
character-list scanner with Python `re` semantics (leftmost match, greedy
counted repetition with backtracking, case-insensitive comparison done by
lowering characters).  Character classes are modelled on their ASCII
fragment (`\d` is `0`-`9`, `\s` is the six ASCII whitespace characters,
`\w` is ASCII alphanumerics plus underscore), matching the filenames and
texts the program processes.
-/

namespace AIMinutes

/-- Whitespace test for the embedding, the ASCII fragment of Python `\s`. -/
def isSpaceCh (c : Char) : Bool :=
  c = ' ' || c = '\t' || c = '\n' || c = '\r' || c = '\x0b' || c = '\x0c'

/-- Decimal digit test, Python `\d` on ASCII. -/
def isDigitCh (c : Char) : Bool :=
  '0' ≤ c && c ≤ '9'

/-- ASCII letter test, the class `[a-zA-Z]`. -/
def isAlphaCh (c : Char) : Bool :=
  ('a' ≤ c && c ≤ 'z') || ('A' ≤ c && c ≤ 'Z')

/-- Word-character test, Python `\w` on ASCII (used by `\b`). -/
def isWordCh (c : Char) : Bool :=
  isAlphaCh c || isDigitCh c || c = '_'

/-- Drop leading whitespace (`\s*` where the next token cannot be whitespace). -/
def dropWs : List Char → List Char :=
  List.dropWhile isSpaceCh

/-- Drop trailing whitespace. -/
def trimRightWs : List Char → List Char
  | [] => []
  | c :: cs =>
    match trimRightWs cs with
    | [] => if isSpaceCh c then [] else [c]
    | r => c :: r

/-- Python `str.strip()` on the ASCII whitespace set: drop leading and
trailing whitespace. -/
def pyStrip (l : List Char) : List Char :=
  trimRightWs (l.dropWhile isSpaceCh)

/-- Length of the leading whitespace run. -/
def wsRun : List Char → Nat
  | [] => 0
  | c :: cs => if isSpaceCh c then wsRun cs + 1 else 0

/-- Length of the leading digit run. -/
def digRun : List Char → Nat
  | [] => 0
  | c :: cs => if isDigitCh c then digRun cs + 1 else 0

/-- Length of the leading run of characters from `[a-zA-Z\s]`. -/
def alphaWsRun : List Char → Nat
  | [] => 0
  | c :: cs => if isAlphaCh c || isSpaceCh c then alphaWsRun cs + 1 else 0

/-- Length of the leading ASCII-letter run (class `[A-Z]` under `IGNORECASE`). -/
def alphaRun : List Char → Nat
  | [] => 0
  | c :: cs => if isAlphaCh c then alphaRun cs + 1 else 0

/-- Length of the leading run of `i`/`v` letters, any case (class `[IV]` under
`IGNORECASE`). -/
def ivRun : List Char → Nat
  | [] => 0
  | c :: cs => if c.toLower = 'i' || c.toLower = 'v' then ivRun cs + 1 else 0

/-- Case-insensitive literal match: `p` is given lowercased; on success the
rest of the input after the literal is returned. -/
def startsWithIC : List Char → List Char → Option (List Char)
  | [], cs => some cs
  | _ :: _, [] => none
  | p :: ps, c :: cs => if c.toLower = p then startsWithIC ps cs else none

/-- Value of a digit string, the effect of Python `int` on the all-digit
capture groups produced by the date patterns. -/
def toNatDigits (l : List Char) : Nat :=
  l.foldl (fun a c => 10 * a + (c.toNat - '0'.toNat)) 0

/-- Word-character test on the character left or right of a position;
`none` stands for the edge of the string. -/
def isWordOpt : Option Char → Bool
  | none => false
  | some c => isWordCh c

/-- Python `\b`: the characters on the two sides of a position disagree on
wordness. -/
def boundaryB (a b : Option Char) : Bool :=
  isWordOpt a != isWordOpt b

/-! ### Date extractor (`extract_date_from_filename`)

The thirteen numeric patterns of Strategy 1 share one shape: a sequence of
digit capture groups, single separator characters from `[.\-_/]`, and runs
of whitespace or of `[a-zA-Z\s]`.  Each is encoded as a `List DElem` in the
source's order.  Only the digit groups need backtracking (greedy counted
repetition); every other element is followed by a token from a disjoint
character class, so consuming the maximal run is exact Python behaviour. -/

/-- One element of a numeric date pattern. -/
inductive DElem where
  | dig (lo hi : Nat)
  | sepCl
  | wsStar
  | wsPlus
  | alphaWsPlus
  | alphaWsStar
deriving Repr

/-- Separator class `[.\-_/]` of the date patterns. -/
def sepCh (c : Char) : Bool :=
  c = '.' || c = '-' || c = '_' || c = '/'

/-- Try `f` at `k`, `k-1`, …, `0` and return the first success (greedy
backtracking order for a counted repetition). -/
def firstK (f : Nat → Option α) : Nat → Option α
  | 0 => f 0
  | k + 1 =>
    match f (k + 1) with
    | some r => some r
    | none => firstK f k

/-- Match a date-pattern element list at the head of the input, returning the
captured digit groups in order and the rest of the input.  The fuel argument
is the length of the element list, which bounds the recursion exactly. -/
def matchElems : Nat → List DElem → List Char → List (List Char) →
    Option (List (List Char) × List Char)
  | _, [], cs, gs => some (gs.reverse, cs)
  | 0, _ :: _, _, _ => none
  | fuel + 1, e :: es, cs, gs =>
    match e with
    | .dig lo hi =>
      let r := min (digRun cs) hi
      if r < lo then none
      else
        firstK (fun k =>
          if k < lo then none
          else matchElems fuel es (cs.drop k) (cs.take k :: gs)) r
    | .sepCl =>
      match cs with
      | c :: cs' => if sepCh c then matchElems fuel es cs' gs else none
      | [] => none
    | .wsStar => matchElems fuel es (cs.drop (wsRun cs)) gs
    | .wsPlus =>
      let r := wsRun cs
      if r = 0 then none else matchElems fuel es (cs.drop r) gs
    | .alphaWsPlus =>
      let r := alphaWsRun cs
      if r = 0 then none else matchElems fuel es (cs.drop r) gs
    | .alphaWsStar => matchElems fuel es (cs.drop (alphaWsRun cs)) gs

/-- The `date_patterns` list of the source, in its order. -/
def datePatterns : List (List DElem) :=
  [ [.dig 1 2, .sepCl, .dig 1 2, .sepCl, .dig 4 4],
    [.dig 1 2, .sepCl, .dig 1 2, .sepCl, .dig 2 2],
    [.dig 4 4, .sepCl, .dig 1 2, .sepCl, .dig 1 2],
    [.wsPlus, .dig 1 2, .sepCl, .wsStar, .dig 1 2, .sepCl, .wsStar, .dig 4 4],
    [.wsPlus, .dig 1 2, .sepCl, .wsStar, .dig 1 2, .sepCl, .wsStar, .dig 2 2],
    [.dig 1 2, .wsStar, .sepCl, .wsStar, .dig 1 2, .wsStar, .sepCl, .wsStar, .dig 4 4],
    [.dig 1 2, .wsStar, .sepCl, .wsStar, .dig 1 2, .wsStar, .sepCl, .wsStar, .dig 2 2],
    [.dig 2 2, .dig 2 2, .dig 4 4],
    [.dig 1 1, .dig 2 2, .dig 4 4],
    [.dig 2 2, .dig 1 1, .dig 4 4],
    [.dig 1 1, .dig 1 1, .dig 4 4],
    [.dig 2 2, .dig 2 2, .dig 2 2],
    [.alphaWsPlus, .dig 1 2, .sepCl, .dig 1 2, .sepCl, .dig 2 4, .alphaWsStar] ]

/-- All matches of one date pattern, `re.finditer` style: scan left to right,
continue after the end of each match (advance one character if a match were
empty).  Fuel `cs.length + 1` always suffices. -/
def findAllDates : Nat → List DElem → List Char →
    List (List Char × List Char × List Char)
  | 0, _, _ => []
  | fuel + 1, pat, cs =>
    match matchElems pat.length pat cs [] with
    | some ([g1, g2, g3], rest) =>
      (g1, g2, g3) ::
        (if rest.length < cs.length then findAllDates fuel pat rest
         else
           match cs with
           | [] => []
           | _ :: cs' => findAllDates fuel pat cs')
    | _ =>
      match cs with
      | [] => []
      | _ :: cs' => findAllDates fuel pat cs'

/-- Strategy 2 of the source: every capture of every pattern, patterns in
order, matches of one pattern left to right. -/
def extractCandidates (cs : List Char) : List (List Char × List Char × List Char) :=
  datePatterns.flatMap (fun pat => findAllDates (cs.length + 1) pat cs)

/-- Month lengths as `datetime.date` validates them (the real-date check of
Strategy 3). -/
def daysInMonth (year month : Nat) : Nat :=
  if month = 2 then
    if year % 4 = 0 && (year % 100 ≠ 0 || year % 400 = 0) then 29 else 28
  else if month = 4 || month = 6 || month = 9 || month = 11 then 30
  else 31

/-- Python `f"{n:02d}"`: the decimal representation left-padded with zeros to
width two. -/
def pad2 (n : Nat) : List Char :=
  let s := (Nat.repr n).data
  if s.length < 2 then '0' :: s else s

/-- Python `f"{month:02d}.{day:02d}.{year}"`. -/
def fmtDate (month day year : Nat) : String :=
  String.mk (pad2 month ++ '.' :: (pad2 day ++ '.' :: (Nat.repr year).data))

/-- Strategy 3 of the source: normalise one `(g1, g2, g3)` capture triple and
validate it, returning the formatted date on success. -/
def validateCandidate (c : List Char × List Char × List Char) : Option String :=
  let g1 := c.1
  let g2 := c.2.1
  let g3 := c.2.2
  let base :=
    if g3.length = 4 then
      some (toNatDigits g1, toNatDigits g2, toNatDigits g3)
    else if g3.length = 2 then
      let ys := toNatDigits g3
      some (toNatDigits g1, toNatDigits g2,
            if ys ≤ 50 then 2000 + ys else 1900 + ys)
    else if g1.length = 4 then
      some (toNatDigits g2, toNatDigits g3, toNatDigits g1)
    else none
  match base with
  | none => none
  | some (m0, d0, y) =>
    let md :=
      if 1 ≤ m0 && m0 ≤ 12 then some (m0, d0)
      else if 1 ≤ d0 && d0 ≤ 12 then some (d0, m0)
      else none
    match md with
    | none => none
    | some (m, d) =>
      if 1 ≤ d && d ≤ 31 then
        if 1990 ≤ y && y ≤ 2030 then
          if d ≤ daysInMonth y m then some (fmtDate m d y) else none
        else none
      else none

/-- First candidate that validates wins (the source returns from inside the
loop). -/
def firstValid : List (List Char × List Char × List Char) → Option String
  | [] => none
  | c :: cs =>
    match validateCandidate c with
    | some s => some s
    | none => firstValid cs

/-- Match a month name with the trailing `\b` (the name's characters are all
word characters, so the next character must not be one). -/
def matchNameBd (p : List Char) (cs : List Char) : Option (List Char) :=
  match startsWithIC p cs with
  | none => none
  | some rest => if isWordOpt rest.head? then none else some rest

/-- The `.*?(\d{2,4})` tail of a month pattern: lazily scan (never across a
newline, `.` has no `DOTALL` here) for the first digit run of length at least
two; the group takes greedily up to four digits. -/
def innerYear : List Char → Option (List Char)
  | [] => none
  | c :: cs =>
    if c = '\n' then none
    else if isDigitCh c && 2 ≤ digRun (c :: cs) then
      some ((c :: cs).take (min (digRun (c :: cs)) 4))
    else innerYear cs

/-- The `.*?(\d{1,2}).*?(\d{2,4})` tail of a month pattern, with Python's
backtracking order: the lazy dot advances; at a digit, the day group tries
two digits, then one, before the dot advances past that digit. -/
def outerDay : List Char → Option (List Char × List Char)
  | [] => none
  | c :: cs =>
    if c = '\n' then none
    else if isDigitCh c then
      match
        (if 2 ≤ digRun (c :: cs) then
          (innerYear ((c :: cs).drop 2)).map (fun y => ((c :: cs).take 2, y))
        else none) with
      | some dy => some dy
      | none =>
        match (innerYear ((c :: cs).drop 1)).map
            (fun y => ((c :: cs).take 1, y)) with
        | some dy => some dy
        | none => outerDay cs
    else outerDay cs

/-- Search `\b(abbr|full)\b.*?(\d{1,2}).*?(\d{2,4})` left to right on the
lowercased filename, trying the short alternative first at each position as
Python's alternation does, and returning the day and year groups. -/
def monthSearch (abbr full : List Char) : Option Char → List Char →
    Option (List Char × List Char)
  | _, [] => none
  | pre, c :: cs =>
    match
      (if boundaryB pre (some c) then
        match
          (match matchNameBd abbr (c :: cs) with
           | some rest => outerDay rest
           | none => none) with
        | some dy => some dy
        | none =>
          match matchNameBd full (c :: cs) with
          | some rest => outerDay rest
          | none => none
      else none) with
    | some dy => some dy
    | none => monthSearch abbr full (some c) cs

/-- The `month_patterns` table of Strategy 4, in dictionary order. -/
def monthTable : List ((List Char × List Char) × Nat) :=
  [ (("jan".data, "january".data), 1),
    (("feb".data, "february".data), 2),
    (("mar".data, "march".data), 3),
    (("apr".data, "april".data), 4),
    (("may".data, "may".data), 5),
    (("jun".data, "june".data), 6),
    (("jul".data, "july".data), 7),
    (("aug".data, "august".data), 8),
    (("sep".data, "september".data), 9),
    (("oct".data, "october".data), 10),
    (("nov".data, "november".data), 11),
    (("dec".data, "december".data), 12) ]

/-- Strategy 4 of the source: per month pattern, take the first match; if its
day and year validate return the formatted date, otherwise move to the next
month pattern. -/
def monthLoop : List ((List Char × List Char) × Nat) → List Char → Option String
  | [], _ => none
  | ((ab, fl), m) :: rest, cs =>
    match monthSearch ab fl none cs with
    | some (g2, g3) =>
      let day := toNatDigits g2
      let year0 := toNatDigits g3
      let year :=
        if g3.length = 2 then (if year0 ≤ 50 then 2000 + year0 else 1900 + year0)
        else year0
      if 1 ≤ day && day ≤ 31 && 1990 ≤ year && year ≤ 2030 then
        some (fmtDate m day year)
      else monthLoop rest cs
    | none => monthLoop rest cs

/-- The source's `extract_date_from_filename`: numeric candidates in pattern
order, then month names on the lowercased filename, then the sentinel. -/
def extract_date_from_filename (filename : String) : String :=
  match firstValid (extractCandidates filename.data) with
  | some s => s
  | none =>
    match monthLoop monthTable (filename.data.map Char.toLower) with
    | some s => s
    | none => "Unknown Date"

/-! ### Section locator (`extract_open_forum_section`)

Each of the nine patterns is a header part followed by a lazy capture
`(.*?)` and a lookahead listing the possible section enders, with `\Z`
always among the alternatives.  With `\Z` present the capture and lookahead
always succeed once the header matches, so `re.search` succeeds exactly
when the header matches somewhere, at the leftmost such position; the lazy
capture stops at the first position where an ender matches.  Matching is
case-insensitive (`re.IGNORECASE`): literals are stored lowercase and
compared against lowered characters; `[A-Z]{n}` becomes any `n` ASCII
letters, `[IV]` the letters `i`/`v` of either case. -/

/-- One element of a section-header pattern. -/
inductive HElem where
  | lit (s : List Char)
  | wsStar
  | wsPlus
  | letters (n : Nat)
  | ivStar
  | digPlus
deriving Repr

/-- Match a header element list at the head of the input.  Every element is
followed by a token from a disjoint character class (or an exact count), so
consuming maximally is exact Python behaviour. -/
def matchHeader : List HElem → List Char → Option (List Char)
  | [], cs => some cs
  | e :: es, cs =>
    match e with
    | .lit s =>
      match startsWithIC s cs with
      | some rest => matchHeader es rest
      | none => none
    | .wsStar => matchHeader es (cs.drop (wsRun cs))
    | .wsPlus =>
      let r := wsRun cs
      if r = 0 then none else matchHeader es (cs.drop r)
    | .letters n => if alphaRun cs < n then none else matchHeader es (cs.drop n)
    | .ivStar => matchHeader es (cs.drop (ivRun cs))
    | .digPlus =>
      let r := digRun cs
      if r = 0 then none else matchHeader es (cs.drop r)

/-- One alternative of a section-ender lookahead. -/
inductive SEnder where
  | slit (s : List Char)
  | sivDot
  | sdigDot
deriving Repr

/-- Does an ender alternative match at this position (`[IV]*\.` and `\d+\.`
are deterministic because `.` is in neither class)? -/
def enderMatches : SEnder → List Char → Bool
  | .slit s, cs => (startsWithIC s cs).isSome
  | .sivDot, cs => (cs.drop (ivRun cs)).head? == some '.'
  | .sdigDot, cs => digRun cs ≠ 0 && ((cs.drop (digRun cs)).head? == some '.')

/-- The lazy capture `(.*?)(?=enders|\Z)`: consume until the first position
where an ender matches, or the end of the text. -/
def captureScan (enders : List SEnder) : List Char → List Char
  | [] => []
  | c :: cs =>
    if enders.any (fun e => enderMatches e (c :: cs)) then []
    else c :: captureScan enders cs

/-- One pattern of the section-locator cascade. -/
structure SectionPattern where
  header : List HElem
  enders : List SEnder

/-- Leftmost position where the header matches (`re.search`), returning the
rest of the input after the header. -/
def searchHeader (hs : List HElem) : List Char → Option (List Char)
  | [] => matchHeader hs []
  | c :: cs =>
    match matchHeader hs (c :: cs) with
    | some rest => some rest
    | none => searchHeader hs cs

/-- Full match of one section pattern: header search, then lazy capture. -/
def searchSection (p : SectionPattern) (cs : List Char) : Option (List Char) :=
  match searchHeader p.header cs with
  | some rest => some (captureScan p.enders rest)
  | none => none

/-- The nine patterns of the source's cascade, in priority order. -/
def sectionPatterns : List SectionPattern :=
  [ ⟨[.lit "v.".data, .wsStar, .lit "open forum".data],
     [.slit "vi.".data, .slit "discussion item".data, .slit "vii.".data,
      .slit "action items".data, .slit "motion".data, .slit "adjournment".data]⟩,
    ⟨[.lit "5.".data, .wsStar, .lit "open forum".data],
     [.slit "6.".data, .slit "discussion item".data, .slit "7.".data,
      .slit "action items".data, .slit "motion".data, .slit "adjournment".data]⟩,
    ⟨[.lit "open forum".data],
     [.slit "discussion item".data, .slit "action items".data, .slit "motion".data,
      .slit "adjournment".data, .slit "next meeting".data]⟩,
    ⟨[.lit "v.".data, .wsStar, .letters 4, .wsPlus, .letters 5],
     [.slit "vi.".data, .slit "discussion item".data, .slit "vii.".data,
      .slit "action items".data, .slit "motion".data, .slit "adjournment".data]⟩,
    ⟨[.lit "5.".data, .wsStar, .letters 4, .wsPlus, .letters 5],
     [.slit "6.".data, .slit "discussion item".data, .slit "7.".data,
      .slit "action items".data, .slit "motion".data, .slit "adjournment".data]⟩,
    ⟨[.lit "9.".data, .wsStar, .letters 4, .wsPlus, .letters 5],
     [.slit "vi.".data, .slit "discussion item".data, .slit "vii.".data,
      .slit "action items".data, .slit "motion".data, .slit "adjournment".data,
      .slit "9i.".data, .slit "10.".data, .slit "aqqrxqfhphqwv".data,
      .slit "agmrxuqphqw".data]⟩,
    ⟨[.lit "9.".data, .wsStar, .lit "oshq".data, .wsPlus, .lit "fruxp".data],
     [.slit "9i.".data, .slit "vi.".data, .slit "discussion item".data,
      .slit "vii.".data, .slit "action items".data, .slit "motion".data,
      .slit "adjournment".data, .slit "aqqrxqfhphqwv".data, .slit "agmrxuqphqw".data]⟩,
    ⟨[.ivStar, .lit ".".data, .wsStar, .lit "open".data, .wsPlus, .lit "forum".data],
     [.sivDot, .slit "discussion".data, .slit "action".data, .slit "motion".data,
      .slit "adjournment".data, .slit "next meeting".data]⟩,
    ⟨[.digPlus, .lit ".".data, .wsStar, .lit "open".data, .wsPlus, .lit "forum".data],
     [.sdigDot, .slit "discussion".data, .slit "action".data, .slit "motion".data,
      .slit "adjournment".data, .slit "next meeting".data]⟩ ]

/-- First pattern of the cascade that matches wins; its capture is stripped. -/
def sectionLoop : List SectionPattern → List Char → Option String
  | [], _ => none
  | p :: ps, cs =>
    match searchSection p cs with
    | some cap => some (String.mk (pyStrip cap))
    | none => sectionLoop ps cs

/-- The source's `extract_open_forum_section`. -/
def extract_open_forum_section (text : String) : Option String :=
  sectionLoop sectionPatterns text.data

/-! ### Content classifier (`has_no_comments`, `is_only_admin_content`)

The first three `no_comment_patterns` all have the shape
`\b(alt|alt|…)\b` and are used only through the truthiness of `re.search`,
which holds exactly when some alternative occurs word-bounded somewhere in
the text; `no comments?`, `no speakers?` and `n/?a` expand into their two
literal alternatives.  The fourth pattern `^\s*(none|n/?a)\s*\.?\s*$` is
translated directly. -/

/-- The word-bounded phrases of the first three `no_comment_patterns`. -/
def noCommentPhrases : List (List Char) :=
  [ "no open forum".data, "no comment".data, "no comments".data, "none".data,
    "n/a".data, "na".data, "not applicable".data,
    "no public comment".data, "no discussion".data, "no speaker".data,
    "no speakers".data,
    "no one spoke".data, "no attendees".data, "no participants".data ]

/-- Does a phrase match right here, with a word boundary on each side? -/
def phraseAt (p : List Char) (pre : Option Char) (cs : List Char) : Bool :=
  match startsWithIC p cs with
  | none => false
  | some rest => boundaryB pre cs.head? && boundaryB p.getLast? rest.head?

/-- Scan for a word-bounded, case-insensitive occurrence of the phrase. -/
def cwbAux (p : List Char) : Option Char → List Char → Bool
  | _, [] => false
  | pre, c :: cs => phraseAt p pre (c :: cs) || cwbAux p (some c) cs

/-- Word-bounded case-insensitive containment, `re.search` of `\bp\b`. -/
def containsWordBounded (p : List Char) (cs : List Char) : Bool :=
  cwbAux p none cs

/-- The fourth pattern `^\s*(none|n/?a)\s*\.?\s*$`. -/
def noneNaLine (cs : List Char) : Bool :=
  let r1 := dropWs cs
  let afterName :=
    match startsWithIC "none".data r1 with
    | some rest => some rest
    | none =>
      match startsWithIC "n/a".data r1 with
      | some rest => some rest
      | none => startsWithIC "na".data r1
  match afterName with
  | none => false
  | some rest =>
    let r2 := dropWs rest
    let r3 :=
      match r2 with
      | '.' :: t => dropWs t
      | _ => r2
    r3.isEmpty

/-- The source's `has_no_comments`. -/
def has_no_comments (text : String) : Bool :=
  noCommentPhrases.any (fun p => containsWordBounded p text.data) ||
    noneNaLine text.data

/-- Python `re.sub(r'\s+', ' ', ·)`: every whitespace run becomes one space. -/
def collapseAux : Bool → List Char → List Char
  | _, [] => []
  | inWs, c :: cs =>
    if isSpaceCh c then
      if inWs then collapseAux true cs else ' ' :: collapseAux true cs
    else c :: collapseAux false cs

/-- Whitespace-run collapsing. -/
def collapseWs (l : List Char) : List Char :=
  collapseAux false l

/-- Leading run of characters satisfying `p`. -/
def runP (p : Char → Bool) : List Char → Nat
  | [] => 0
  | c :: cs => if p c then runP p cs + 1 else 0

/-- Exact (case-sensitive) literal match returning the rest. -/
def startsWithExR : List Char → List Char → Option (List Char)
  | [], cs => some cs
  | _ :: _, [] => none
  | p :: ps, c :: cs => if c = p then startsWithExR ps cs else none

/-- Exact literal test. -/
def startsWithEx (p cs : List Char) : Bool :=
  (startsWithExR p cs).isSome

/-- Python substring containment `p in cs` (both sides already lowercased
where the source lowercases). -/
def containsSub (p : List Char) : List Char → Bool
  | [] => p.isEmpty
  | c :: cs => startsWithEx p (c :: cs) || containsSub p cs

/-- The `admin_words` list of `is_only_admin_content`. -/
def admWords : List (List Char) :=
  ["docusign".data, "envelope".data, "id".data, "page".data,
   "continued".data, "end".data]

/-- Python `str.split()`: split on whitespace runs, dropping empty pieces. -/
def splitWsAux : List Char → List Char → List (List Char)
  | acc, [] => if acc.isEmpty then [] else [acc.reverse]
  | acc, c :: cs =>
    if isSpaceCh c then
      if acc.isEmpty then splitWsAux [] cs else acc.reverse :: splitWsAux [] cs
    else splitWsAux (c :: acc) cs

/-- Whitespace tokenisation. -/
def splitWs (l : List Char) : List (List Char) :=
  splitWsAux [] l

/-- The class `[A-Za-z0-9\s\-:]` of the envelope-only pattern. -/
def isCls1 (c : Char) : Bool :=
  isAlphaCh c || isDigitCh c || isSpaceCh c || c = '-' || c = ':'

/-- The class `[A-Za-z0-9\-]`. -/
def isAlnumHy (c : Char) : Bool :=
  isAlphaCh c || isDigitCh c || c = '-'

/-- The class `[:\s]`. -/
def isColonWs (c : Char) : Bool :=
  c = ':' || isSpaceCh c

/-- Tail `\s+id[:\s]*[A-Za-z0-9\-]+\s*$` of the envelope-only pattern after
the literal `envelope`. -/
def envelopeTail (cs : List Char) : Bool :=
  let r := wsRun cs
  if r = 0 then false
  else
    match startsWithIC "id".data (cs.drop r) with
    | none => false
    | some rest =>
      let rest2 := rest.drop (runP isColonWs rest)
      let k := runP isAlnumHy rest2
      if k = 0 then false else (dropWs (rest2.drop k)).isEmpty

/-- The anchored pattern `^[A-Za-z0-9\s\-:]+envelope\s+id[:\s]*[A-Za-z0-9\-]+\s*$`:
the literal `envelope` must occur after a nonempty all-class prefix. -/
def envelopeOnly : List Char → Bool
  | [] => false
  | c :: cs =>
    if isCls1 c then
      (match startsWithIC "envelope".data cs with
       | some rest => envelopeTail rest
       | none => false) || envelopeOnly cs
    else false

/-- Anchored `^p\s*$` for a case-insensitive literal `p`. -/
def litWsEnd (p : List Char) (cs : List Char) : Bool :=
  match startsWithIC p cs with
  | some rest => (dropWs rest).isEmpty
  | none => false

/-- Anchored `^page\s+\d+\s*$`. -/
def pageOnly (cs : List Char) : Bool :=
  match startsWithIC "page".data cs with
  | none => false
  | some rest =>
    let r := wsRun rest
    if r = 0 then false
    else
      let rest2 := rest.drop r
      let k := digRun rest2
      if k = 0 then false else (dropWs (rest2.drop k)).isEmpty

/-- The source's `is_only_admin_content`. -/
def is_only_admin_content (text : String) : Bool :=
  let clean := collapseWs (pyStrip text.data)
  if clean.length < 10 then true
  else if envelopeOnly clean then true
  else if pageOnly clean then true
  else if litWsEnd "continued".data clean then true
  else if litWsEnd "end".data clean then true
  else if (dropWs clean).isEmpty then true
  else
    let ws := splitWs (clean.map Char.toLower)
    let nonAdmin := ws.filter (fun w => !(admWords.any (fun a => containsSub a w)))
    decide (nonAdmin.length < 3)

/-! ### Per-paragraph administrative check (`is_admin_paragraph`) -/

/-- One element of a searched admin pattern. -/
inductive AElem where
  | alit (s : List Char)
  | awsPlus
  | adigPlus
deriving Repr

/-- Match an admin pattern at the head of the input (each `\s+`/`\d+` is
followed by a letter literal or ends the pattern, so maximal runs are
exact). -/
def matchAElems : List AElem → List Char → Bool
  | [], _ => true
  | .alit s :: es, cs =>
    match startsWithIC s cs with
    | some rest => matchAElems es rest
    | none => false
  | .awsPlus :: es, cs =>
    let r := wsRun cs
    if r = 0 then false else matchAElems es (cs.drop r)
  | .adigPlus :: es, cs =>
    let r := digRun cs
    if r = 0 then false else matchAElems es (cs.drop r)

/-- Unanchored `re.search` of an admin pattern. -/
def searchA (es : List AElem) : List Char → Bool
  | [] => matchAElems es []
  | c :: cs => matchAElems es (c :: cs) || searchA es cs

/-- Anchored `^\s*\d+\s*$`. -/
def numOnly (cs : List Char) : Bool :=
  let r1 := dropWs cs
  let k := digRun r1
  if k = 0 then false else (dropWs (r1.drop k)).isEmpty

/-- The class `[a-f0-9\-]` of the envelope-id substitution (the input is
already lowercased). -/
def isHexHy (c : Char) : Bool :=
  ('a' ≤ c && c ≤ 'f') || isDigitCh c || c = '-'

/-- Replace every match of `m` (which must match at the head and return the
rest) by the empty string, `re.sub` style.  Fuel `length + 1` suffices. -/
def subAll (m : List Char → Option (List Char)) : Nat → List Char → List Char
  | 0, cs => cs
  | fuel + 1, cs =>
    match m cs with
    | some rest =>
      if rest.length < cs.length then subAll m fuel rest
      else
        match cs with
        | [] => []
        | c :: cs' => c :: subAll m fuel cs'
    | none =>
      match cs with
      | [] => []
      | c :: cs' => c :: subAll m fuel cs'

/-- Matcher for `docusign\s+envelope\s+id:\s*[a-f0-9\-]+`. -/
def envSubMatch (cs : List Char) : Option (List Char) :=
  match startsWithIC "docusign".data cs with
  | none => none
  | some r1 =>
    let w1 := wsRun r1
    if w1 = 0 then none
    else
      match startsWithIC "envelope".data (r1.drop w1) with
      | none => none
      | some r2 =>
        let w2 := wsRun r2
        if w2 = 0 then none
        else
          match startsWithIC "id:".data (r2.drop w2) with
          | none => none
          | some r3 =>
            let r4 := r3.drop (wsRun r3)
            let k := runP isHexHy r4
            if k = 0 then none else some (r4.drop k)

/-- Matcher for `page\s+\d+`. -/
def pageSubMatch (cs : List Char) : Option (List Char) :=
  match startsWithIC "page".data cs with
  | none => none
  | some r1 =>
    let w := wsRun r1
    if w = 0 then none
    else
      let r2 := r1.drop w
      let k := digRun r2
      if k = 0 then none else some (r2.drop k)

/-- Matcher for `meeting\s+id:\s*\d+`. -/
def meetIdSubMatch (cs : List Char) : Option (List Char) :=
  match startsWithIC "meeting".data cs with
  | none => none
  | some r1 =>
    let w := wsRun r1
    if w = 0 then none
    else
      match startsWithIC "id:".data (r1.drop w) with
      | none => none
      | some r2 =>
        let r3 := r2.drop (wsRun r2)
        let k := digRun r3
        if k = 0 then none else some (r3.drop k)

/-- Matcher for `zoom\s+call:\s*https?://[^\s]+`. -/
def zoomSubMatch (cs : List Char) : Option (List Char) :=
  match startsWithIC "zoom".data cs with
  | none => none
  | some r1 =>
    let w := wsRun r1
    if w = 0 then none
    else
      match startsWithIC "call:".data (r1.drop w) with
      | none => none
      | some r2 =>
        let r3 := r2.drop (wsRun r2)
        let afterScheme :=
          match startsWithIC "https://".data r3 with
          | some t => some t
          | none => startsWithIC "http://".data r3
        match afterScheme with
        | none => none
        | some r4 =>
          let k := runP (fun c => !isSpaceCh c) r4
          if k = 0 then none else some (r4.drop k)

/-- Matcher for `passcode:\s*\w+`. -/
def passSubMatch (cs : List Char) : Option (List Char) :=
  match startsWithIC "passcode:".data cs with
  | none => none
  | some r1 =>
    let r2 := r1.drop (wsRun r1)
    let k := runP isWordCh r2
    if k = 0 then none else some (r2.drop k)

/-- The source's `is_admin_paragraph` on the paragraph's characters. -/
def is_admin_paragraph (paragraph : List Char) : Bool :=
  let clean := (pyStrip paragraph).map Char.toLower
  if clean.length < 50 then
    searchA [.alit "docusign".data, .awsPlus, .alit "envelope".data, .awsPlus,
             .alit "id:".data] clean ||
    searchA [.alit "page".data, .awsPlus, .adigPlus] clean ||
    litWsEnd "continued".data clean ||
    litWsEnd "end".data clean ||
    numOnly clean ||
    searchA [.alit "meeting".data, .awsPlus, .alit "id:".data] clean ||
    searchA [.alit "zoom".data, .awsPlus, .alit "call:".data] clean ||
    searchA [.alit "passcode:".data] clean
  else if clean.length > 100 then
    let t1 := subAll envSubMatch (clean.length + 1) clean
    let t2 := subAll pageSubMatch (t1.length + 1) t1
    let t3 := subAll meetIdSubMatch (t2.length + 1) t2
    let t4 := subAll zoomSubMatch (t3.length + 1) t3
    let t5 := subAll passSubMatch (t4.length + 1) t4
    let t6 := pyStrip (collapseWs t5)
    -- the source returns False here whether or not substantial content is
    -- left: both arms of its final test fall through to `return False`
    if t6.length > 80 then false else false
  else false

/-! ### Comment segmenter (`split_by_clear_boundaries`, paragraph split,
`count_public_comments`) -/

/-- Index (within the leading whitespace run) of the last newline, the
greedy `\s*` before the final `\n` of the split pattern. -/
def lastNlInRun : List Char → Option Nat
  | [] => none
  | c :: cs =>
    if isSpaceCh c then
      match lastNlInRun cs with
      | some j => some (j + 1)
      | none => if c = '\n' then some 0 else none
    else none

/-- Like `lastNlInRun` for the `\r\n` alternative: last position in the
leading whitespace run where `\r\n` starts. -/
def lastCrNlInRun : List Char → Option Nat
  | [] => none
  | c :: cs =>
    if isSpaceCh c then
      match lastCrNlInRun cs with
      | some j => some (j + 1)
      | none => if c = '\r' && cs.head? == some '\n' then some 0 else none
    else none

/-- Python `re.split(r'\n\s*\n|\r\n\s*\r\n', text)`: non-overlapping matches
left to right, first alternative preferred, empty pieces kept. -/
def splitParasAux : Nat → List Char → List Char → List (List Char)
  | 0, acc, _ => [acc.reverse]
  | fuel + 1, acc, cs =>
    match cs with
    | [] => [acc.reverse]
    | '\n' :: rest =>
      (match lastNlInRun rest with
       | some j => acc.reverse :: splitParasAux fuel [] (rest.drop (j + 1))
       | none => splitParasAux fuel ('\n' :: acc) rest)
    | '\r' :: '\n' :: rest2 =>
      (match lastCrNlInRun rest2 with
       | some j => acc.reverse :: splitParasAux fuel [] (rest2.drop (j + 2))
       | none => splitParasAux fuel ('\r' :: acc) ('\n' :: rest2))
    | c :: rest => splitParasAux fuel (c :: acc) rest

/-- Paragraph split of `count_public_comments`. -/
def splitParagraphs (cs : List Char) : List (List Char) :=
  splitParasAux (cs.length + 1) [] cs

/-- The paragraph filter `^\s*(page \d+|continued|end)\s*$` (`re.match`,
`IGNORECASE`); the alternatives start with distinct letters, so at most one
can match. -/
def pageParaMatch (cs : List Char) : Bool :=
  let r1 := dropWs cs
  let tryTail : Option (List Char) :=
    match startsWithIC "page ".data r1 with
    | some r2 =>
      let k := digRun r2
      if k = 0 then none else some (r2.drop k)
    | none =>
      match startsWithIC "continued".data r1 with
      | some r2 => some r2
      | none => startsWithIC "end".data r1
  match tryTail with
  | some r => (dropWs r).isEmpty
  | none => false

/-- Uppercase ASCII letter, the class `[A-Z]` (these patterns carry no
`IGNORECASE`). -/
def isUpperCh (c : Char) : Bool :=
  'A' ≤ c && c ≤ 'Z'

/-- The class `[a-zA-Z\s,&]` of the first speaker lookahead. -/
def isSpCls1 (c : Char) : Bool :=
  isAlphaCh c || isSpaceCh c || c = ',' || c = '&'

/-- The class `[a-zA-Z\s,]` of the `Per` lookahead. -/
def isSpCls2 (c : Char) : Bool :=
  isAlphaCh c || isSpaceCh c || c = ','

/-- The four alternatives `(meeting times? were asked by|was asked by|asked
by|stated by)` with the literal space that precedes the group. -/
def speakerPhrases : List (List Char) :=
  [ " meeting time were asked by".data, " meeting times were asked by".data,
    " was asked by".data, " asked by".data, " stated by".data ]

/-- Scan of `[a-zA-Z\s,&]+ (alternatives)`: after at least one class
character, some alternative (with its leading space) starts. -/
def speakerScan : List Char → Bool
  | [] => false
  | c :: cs =>
    if isSpCls1 c then
      speakerPhrases.any (fun p => startsWithEx p cs) || speakerScan cs
    else false

/-- Lookahead `(?=[A-Z][a-zA-Z\s,&]+ (…))`. -/
def lookSpeaker1 : List Char → Bool
  | [] => false
  | c :: cs => isUpperCh c && speakerScan cs

/-- Scan of `[a-zA-Z\s,]+,`: after at least one class character a comma
follows. -/
def perScan : List Char → Bool
  | [] => false
  | c :: cs =>
    if isSpCls2 c then (cs.head? == some ',') || perScan cs
    else false

/-- Lookahead `(?=Per [A-Z][a-zA-Z\s,]+,)`. -/
def lookSpeaker2 (cs : List Char) : Bool :=
  match startsWithExR "Per ".data cs with
  | none => false
  | some rest =>
    match rest with
    | c :: cs' => isUpperCh c && perScan cs'
    | [] => false

/-- Split points of one boundary pattern `(?<=\.)\s*\n(?=look)`: the
recorded point is `match.end() - 1`, the index of the matched newline.
A match needs a period immediately before it, so matches cannot overlap and
a plain position scan equals `re.finditer`. -/
def splitPointsAux (look : List Char → Bool) : Nat → Option Char → List Char → List Nat
  | _, _, [] => []
  | i, pre, c :: cs =>
    (if pre == some '.' then
      match lastNlInRun (c :: cs) with
      | some j => if look ((c :: cs).drop (j + 1)) then [i + j] else []
      | none => []
    else []) ++ splitPointsAux look (i + 1) (some c) cs

/-- Insert into a sorted duplicate-free list (`sorted(list(set(…)))`). -/
def insertUnique (n : Nat) : List Nat → List Nat
  | [] => [n]
  | m :: ms =>
    if n = m then m :: ms
    else if n < m then n :: m :: ms
    else m :: insertUnique n ms

/-- Sorted deduplication. -/
def sortedUnique : List Nat → List Nat
  | [] => []
  | n :: ns => insertUnique n (sortedUnique ns)

/-- The source's split loop: cut at each boundary, keep stripped pieces
longer than 30 characters, then the final piece. -/
def cutLoop (para : List Char) : Nat → List Nat → List (List Char)
  | start, [] =>
    if start < para.length then
      let fc := pyStrip (para.drop start)
      if fc.length > 30 then [fc] else []
    else []
  | start, b :: bs =>
    (if start < b then
      let piece := pyStrip ((para.drop start).take (b - start))
      if piece.length > 30 then [piece] else []
    else []) ++ cutLoop para b bs

/-- The source's `split_by_clear_boundaries`. -/
def split_by_clear_boundaries (para : List Char) : List (List Char) :=
  let pts1 := splitPointsAux lookSpeaker1 0 none para
  let pts2 := splitPointsAux lookSpeaker2 0 none para
  let pts := sortedUnique (pts1 ++ pts2)
  if pts.isEmpty then
    if (pyStrip para).isEmpty then [] else [pyStrip para]
  else
    let pieces := cutLoop para 0 pts
    if pieces.isEmpty then
      if (pyStrip para).isEmpty then [] else [pyStrip para]
    else pieces

/-- The paragraph filter and sub-split of `count_public_comments`. -/
def processPara (para : List Char) : List (List Char) :=
  let p := pyStrip para
  if decide (p.length > 20) && !pageParaMatch p && !is_admin_paragraph p then
    split_by_clear_boundaries p
  else []

/-- The source's `count_public_comments` (its local `cleaned_text` is dead
code and has no observable effect). -/
def count_public_comments (open_forum_text : String) : Nat :=
  if open_forum_text = "" || has_no_comments open_forum_text then 0
  else if is_only_admin_content open_forum_text then 0
  else ((splitParagraphs open_forum_text.data).flatMap processPara).length

/-! ### Aggregator (`process_single_pdf`, folder processing)

The filesystem and the PDF text provider are external collaborators: a run
is modelled by the list of PDF file names to process and a pure
`getText : String → String` in which the empty string signals a failed or
empty extraction, exactly the value `extract_text_from_pdf` returns on
error.  The mutable agent attributes (`skipped_files` and
`processing_stats`) become an explicit state record threaded through the
processing functions. -/

/-- The agent's mutable attributes: the `skipped_files` list and the four
counters of `processing_stats` (`total_files`, `processed_files`,
`skipped_files`, `total_comments`). -/
structure AgentState where
  skippedFiles : List (String × String)
  statTotalFiles : Nat
  statProcessedFiles : Nat
  statSkippedFiles : Nat
  statTotalComments : Nat
deriving Repr, DecidableEq

/-- The state `__init__` builds. -/
def initState : AgentState :=
  ⟨[], 0, 0, 0, 0⟩

/-- Python dict assignment `m[k] = v`: overwrite in place, else append. -/
def dictInsert (m : List (String × Nat)) (k : String) (v : Nat) :
    List (String × Nat) :=
  if m.any (fun p => p.1 == k) then
    m.map (fun p => if p.1 == k then (k, v) else p)
  else m ++ [(k, v)]

/-- The source's `process_single_pdf`: date from the filename, then text,
section, count, with a skip entry recorded at each failure exit (`if not
open_forum_text` is also true for an empty located section). -/
def process_single_pdf (getText : String → String) (filename : String)
    (st : AgentState) : (String × Option Nat) × AgentState :=
  let date := extract_date_from_filename filename
  let text := getText filename
  if text = "" then
    ((date, none),
     { st with skippedFiles := st.skippedFiles ++ [(filename, "Failed to extract text")] })
  else
    match extract_open_forum_section text with
    | none =>
      ((date, none),
       { st with skippedFiles := st.skippedFiles ++ [(filename, "No Open Forum section found")] })
    | some s =>
      if s = "" then
        ((date, none),
         { st with skippedFiles := st.skippedFiles ++ [(filename, "No Open Forum section found")] })
      else
        let c := count_public_comments s
        if c = 0 then
          ((date, none),
           { st with skippedFiles := st.skippedFiles ++ [(filename, "No comments or 'no comment' marker found")] })
        else ((date, some c), st)

/-- Loop body of `process_single_year_folder` over the enumerated PDF
files, with the date-to-count dict as accumulator. -/
def psyfAux (getText : String → String) :
    List String → List (String × Nat) → AgentState →
    List (String × Nat) × AgentState
  | [], m, st => (m, st)
  | f :: fs, m, st =>
    let r := process_single_pdf getText f st
    match r.1.2 with
    | some c =>
      psyfAux getText fs (dictInsert m r.1.1 c)
        { r.2 with statProcessedFiles := r.2.statProcessedFiles + 1,
                   statTotalComments := r.2.statTotalComments + c }
    | none =>
      psyfAux getText fs m { r.2 with statSkippedFiles := r.2.statSkippedFiles + 1 }

/-- The source's `process_single_year_folder` on its enumerated file list. -/
def process_single_year_folder (getText : String → String) (files : List String)
    (st : AgentState) : List (String × Nat) × AgentState :=
  psyfAux getText files [] st

/-- The per-year counters of `process_single_year_folder_with_stats`. -/
structure YearStats where
  totalMeetings : Nat
  meetingsWithComments : Nat
  meetingsNoComments : Nat
  meetingsNoOpenForum : Nat
  totalComments : Nat
deriving Repr, DecidableEq

/-- Loop body of `process_single_year_folder_with_stats`: failure cases only
touch the local counters (`continue`), and no entry is appended to
`skipped_files` on this path. -/
def pswsAux (getText : String → String) :
    List String → List (String × Nat) → YearStats → AgentState →
    List (String × Nat) × YearStats × AgentState
  | [], m, ys, st => (m, ys, st)
  | f :: fs, m, ys, st =>
    let date := extract_date_from_filename f
    let text := getText f
    if text = "" then
      pswsAux getText fs m
        { ys with meetingsNoOpenForum := ys.meetingsNoOpenForum + 1 } st
    else
      match extract_open_forum_section text with
      | none =>
        pswsAux getText fs m
          { ys with meetingsNoOpenForum := ys.meetingsNoOpenForum + 1 } st
      | some s =>
        if s = "" then
          pswsAux getText fs m
            { ys with meetingsNoOpenForum := ys.meetingsNoOpenForum + 1 } st
        else
          let c := count_public_comments s
          if c > 0 then
            pswsAux getText fs (dictInsert m date c)
              { ys with meetingsWithComments := ys.meetingsWithComments + 1,
                        totalComments := ys.totalComments + c }
              { st with statProcessedFiles := st.statProcessedFiles + 1,
                        statTotalComments := st.statTotalComments + c }
          else
            pswsAux getText fs m
              { ys with meetingsNoComments := ys.meetingsNoComments + 1 }
              { st with statSkippedFiles := st.statSkippedFiles + 1 }

/-- The source's `process_single_year_folder_with_stats`
(`total_meetings` is the number of enumerated files). -/
def process_single_year_folder_with_stats (getText : String → String)
    (files : List String) (st : AgentState) :
    List (String × Nat) × YearStats × AgentState :=
  pswsAux getText files [] ⟨files.length, 0, 0, 0, 0⟩ st

/-- A run's input as the aggregator sees it: the root's immediate
subdirectories (with the files of their `Minutes`/`Minute` subfolder when
one exists) and the PDF files found under the root itself. -/
structure FolderLayout where
  subdirs : List (String × Option (List String))
  rootFiles : List String

/-- The yearly-folder test `re.match(r'\d{4}-\d{4}', item)`: an anchored
prefix match, nothing constrains what follows. -/
def matchYearDir (s : String) : Bool :=
  match s.data with
  | a :: b :: c :: d :: e :: f :: g :: h :: i :: _ =>
    isDigitCh a && isDigitCh b && isDigitCh c && isDigitCh d && e = '-' &&
    isDigitCh f && isDigitCh g && isDigitCh h && isDigitCh i
  | _ => false

/-- Code-point lexicographic order on character lists, Python string `<=`. -/
def lexLe : List Char → List Char → Bool
  | [], _ => true
  | _ :: _, [] => false
  | a :: as, b :: bs => if a = b then lexLe as bs else decide (a < b)

/-- String comparison used by the sorts. -/
def strLe (a b : String) : Bool :=
  lexLe a.data b.data

/-- Stable insertion into a sorted list. -/
def insertLe (le : α → α → Bool) (a : α) : List α → List α
  | [] => [a]
  | b :: bs => if le a b then a :: b :: bs else b :: insertLe le a bs

/-- Stable insertion sort; for a total ordering it produces the same list
as Python's stable `sorted`. -/
def insertionSort (le : α → α → Bool) : List α → List α
  | [] => []
  | a :: as => insertLe le a (insertionSort le as)

/-- Loop of `process_folder` over the sorted yearly folders: a year without
a `Minutes`/`Minute` subfolder is skipped; otherwise its results, stats and
meeting total are accumulated. -/
def pfAux (getText : String → String) :
    List (String × Option (List String)) →
    List (String × List (String × Nat)) → List (String × YearStats) → Nat →
    AgentState →
    List (String × List (String × Nat)) × List (String × YearStats) × Nat × AgentState
  | [], res, stats, tot, st => (res, stats, tot, st)
  | (name, minutes) :: rest, res, stats, tot, st =>
    match minutes with
    | none => pfAux getText rest res stats tot st
    | some files =>
      let r := process_single_year_folder_with_stats getText files st
      pfAux getText rest (res ++ [(name, r.1)]) (stats ++ [(name, r.2.1)])
        (tot + r.2.1.totalMeetings) r.2.2

/-- The source's `process_folder`: with no `YYYY-YYYY` subdirectory it
returns the flat `"All Files"` bucket at once — before the line that
assigns `processing_stats['total_files']`, which therefore runs only on
the yearly path. -/
def process_folder (getText : String → String) (layout : FolderLayout)
    (st : AgentState) :
    List (String × List (String × Nat)) × List (String × YearStats) × AgentState :=
  let yearly := layout.subdirs.filter (fun p => matchYearDir p.1)
  if yearly.isEmpty then
    let r := process_single_year_folder getText layout.rootFiles st
    ([("All Files", r.1)], [], r.2)
  else
    let sorted := insertionSort (fun a b => strLe a.1 b.1) yearly
    let r := pfAux getText sorted [] [] 0 st
    (r.1, r.2.1, { r.2.2.2 with statTotalFiles := r.2.2.1 })

/-! ### CSV export (`export_to_csv`) and its re-parse

The `csv` module is the external sink; `csv.writer` with the default
dialect quotes a field containing a delimiter, quote or line-terminator
character, doubles inner quotes, and ends each row with `\r\n`.  The
re-parser is the standard CSV state machine. -/

/-- Does a field need quoting under `QUOTE_MINIMAL`? -/
def needsQuoteCh (c : Char) : Bool :=
  c = ',' || c = '"' || c = '\r' || c = '\n'

/-- Double every quote of a quoted field's body. -/
def escQ : List Char → List Char
  | [] => []
  | c :: cs => if c = '"' then '"' :: '"' :: escQ cs else c :: escQ cs

/-- One serialised field. -/
def writeField (f : List Char) : List Char :=
  if f.any needsQuoteCh then '"' :: (escQ f ++ ['"']) else f

/-- Fields joined by commas. -/
def joinFields : List (List Char) → List Char
  | [] => []
  | [f] => writeField f
  | f :: fs => writeField f ++ ',' :: joinFields fs

/-- One serialised row, `\r\n`-terminated. -/
def writeRow (fs : List (List Char)) : List Char :=
  joinFields fs ++ ['\r', '\n']

/-- The whole CSV file. -/
def writeRowsCsv (rows : List (List (List Char))) : List Char :=
  rows.flatMap writeRow

/-- First-match association lookup, Python dict indexing `d[k]`. -/
def lookupS : List (String × α) → String → Option α
  | [], _ => none
  | (k, v) :: rest, key => if k = key then some v else lookupS rest key

/-- The header row `Academic_Year,Date,Comment_Count`. -/
def csvHeader : List (List Char) :=
  ["Academic_Year".data, "Date".data, "Comment_Count".data]

/-- The rows `export_to_csv` writes: header, then for each year in sorted
key order the year's pairs sorted by date string, one `[year, date,
str(count)]` row each. -/
def exportRows (yearly : List (String × List (String × Nat))) :
    List (List (List Char)) :=
  csvHeader ::
    (insertionSort strLe (yearly.map (fun p => p.1))).flatMap (fun y =>
      match lookupS yearly y with
      | some m =>
        (insertionSort (fun a b => strLe a.1 b.1) m).map
          (fun dc => [y.data, dc.1.data, (Nat.repr dc.2).data])
      | none => [])

/-- The source's `export_to_csv`, as the text written to the file. -/
def export_to_csv (yearly : List (String × List (String × Nat))) : List Char :=
  writeRowsCsv (exportRows yearly)

/-- CSV state machine: `inQ` says whether we are inside a quoted field;
`fld` and `row` accumulate the current field and row. -/
def parseLoop : List Char → Bool → List Char → List (List Char) →
    List (List (List Char)) → List (List (List Char))
  | [], _, fld, row, rows =>
    if fld.isEmpty && row.isEmpty then rows else rows ++ [row ++ [fld]]
  | '"' :: '"' :: cs, true, fld, row, rows => parseLoop cs true (fld ++ ['"']) row rows
  | '"' :: cs, true, fld, row, rows => parseLoop cs false fld row rows
  | c :: cs, true, fld, row, rows => parseLoop cs true (fld ++ [c]) row rows
  | '\r' :: '\n' :: cs, false, fld, row, rows =>
    parseLoop cs false [] [] (rows ++ [row ++ [fld]])
  | c :: cs, false, fld, row, rows =>
    if c = '"' then parseLoop cs true fld row rows
    else if c = ',' then parseLoop cs false [] (row ++ [fld]) rows
    else parseLoop cs false (fld ++ [c]) row rows

/-- Parse a CSV file into its rows of fields. -/
def parseCsv (cs : List Char) : List (List (List Char)) :=
  parseLoop cs false [] [] []

/-- Python `int` on a count field: defined exactly on nonempty digit
strings. -/
def parseNatOpt (cs : List Char) : Option Nat :=
  if cs.isEmpty then none
  else if cs.all isDigitCh then some (toNatDigits cs) else none

/-- Decode one data row back into a `(year, date, count)` triple. -/
def decodeRow : List (List Char) → Option (List Char × List Char × Nat)
  | [y, d, c] => (parseNatOpt c).map (fun n => (y, d, n))
  | _ => none

/-- Re-parse an exported CSV: drop the header row, decode each data row. -/
def reparseTriples (file : List Char) : List (List Char × List Char × Nat) :=
  ((parseCsv file).drop 1).filterMap decodeRow

/-! ### Specification-side checkers -/

/-- Decidable check of the spec's output format `^\d{2}\.\d{2}\.\d{4}$`
with the year constrained to `[1990, 2030]`. -/
def dateShapeOK (s : String) : Bool :=
  match s.data with
  | [a, b, '.', c, d, '.', e, f, g, h] =>
    isDigitCh a && isDigitCh b && isDigitCh c && isDigitCh d &&
    isDigitCh e && isDigitCh f && isDigitCh g && isDigitCh h &&
    decide (1990 ≤ toNatDigits [e, f, g, h]) &&
    decide (toNatDigits [e, f, g, h] ≤ 2030)
  | _ => false

/-- Reference decimal-digit expansion used to reason about `Nat.repr`
(most-significant digit first). -/
def myRepr (n : Nat) : List Char :=
  if n < 10 then [Nat.digitChar n]
  else myRepr (n / 10) ++ [Nat.digitChar (n % 10)]
decreasing_by exact Nat.div_lt_self (by omega) (by omega)

/-! ## Theorems -/

/-- Shared helper: both classifier flags force a zero count, straight from
the two early returns of `count_public_comments`. -/
theorem count_zero_of_flags (t : String)
    (h : has_no_comments t = true ∨ is_only_admin_content t = true) :
    count_public_comments t = 0 := by
  rcases h with h | h
  · simp [count_public_comments, h]
  · by_cases h0 : t = ""
    · simp [count_public_comments, h0]
    · cases hnc : has_no_comments t <;> simp [count_public_comments, h0, h, hnc]

/-- A two-element character list. -/
theorem list_len_two {l : List Char} (h : l.length = 2) : ∃ a b, l = [a, b] := by
  match l with
  | [a, b] => exact ⟨a, b, rfl⟩
  | [] => simp at h
  | [a] => simp at h
  | a :: b :: c :: t => simp at h

/-- A four-element character list. -/
theorem list_len_four {l : List Char} (h : l.length = 4) :
    ∃ a b c d, l = [a, b, c, d] := by
  match l with
  | [a, b, c, d] => exact ⟨a, b, c, d, rfl⟩
  | [] => simp at h
  | [a] => simp at h
  | [a, b] => simp at h
  | [a, b, c] => simp at h
  | a :: b :: c :: d :: e :: t => simp at h

/-- Zero-padding to width two yields two digit characters below 100. -/
theorem pad2_len : ∀ n < 100, (pad2 n).length = 2 ∧ (pad2 n).all isDigitCh = true := by
  decide

/-- Shape facts about the decimal representation of a year in range. -/
theorem yearRepr_facts : ∀ k < 41,
    (Nat.repr (1990 + k)).data.length = 4 ∧
    (Nat.repr (1990 + k)).data.all isDigitCh = true ∧
    toNatDigits (Nat.repr (1990 + k)).data = 1990 + k := by
  decide

/-- A formatted date with in-range components passes the shape check. -/
theorem fmtDate_shape (m d y : Nat) (hm : m < 100) (hd : d < 100)
    (hy1 : 1990 ≤ y) (hy2 : y ≤ 2030) : dateShapeOK (fmtDate m d y) = true := by
  obtain ⟨hml, hma⟩ := pad2_len m hm
  obtain ⟨hdl, hda⟩ := pad2_len d hd
  have hy : y - 1990 < 41 := by omega
  obtain ⟨hyl, hya, hyv⟩ := yearRepr_facts (y - 1990) hy
  rw [Nat.add_sub_cancel' hy1] at hyl hya hyv
  obtain ⟨a, b, hab⟩ := list_len_two hml
  obtain ⟨c, e, hce⟩ := list_len_two hdl
  obtain ⟨p, q, r, s, hpqrs⟩ := list_len_four hyl
  rw [hab] at hma
  rw [hce] at hda
  rw [hpqrs] at hya hyv
  simp only [List.all_cons, List.all_nil, Bool.and_eq_true, Bool.and_true] at hma hda hya
  simp [dateShapeOK, fmtDate, hab, hce, hpqrs, hma.1, hma.2, hda.1, hda.2,
    hya.1, hya.2.1, hya.2.2.1, hya.2.2.2, hyv, hy1, hy2]

/-- A validated numeric candidate is formatted in range. -/
theorem validateCandidate_shape {c : List Char × List Char × List Char} {s : String}
    (h : validateCandidate c = some s) : dateShapeOK s = true := by
  unfold validateCandidate at h
  simp only [] at h
  split at h
  · simp at h
  · rename_i m0 d0 y heq
    split at h
    · simp at h
    · rename_i m d hmd
      split at h
      · split at h
        · split at h
          · rename_i hd hy hreal
            simp only [Bool.and_eq_true, decide_eq_true_eq] at hd hy
            have hs : s = fmtDate m d y := by
              injection h with h'
              exact h'.symm
            subst hs
            have hm : m ≤ 12 := by
              by_cases h1 : (decide (1 ≤ m0) && decide (m0 ≤ 12)) = true
              · rw [if_pos h1] at hmd
                injection hmd with hmd'
                injection hmd' with e1 e2
                simp only [Bool.and_eq_true, decide_eq_true_eq] at h1
                omega
              · rw [if_neg h1] at hmd
                split at hmd
                · rename_i h2
                  injection hmd with hmd'
                  injection hmd' with e1 e2
                  simp only [Bool.and_eq_true, decide_eq_true_eq] at h2
                  omega
                · simp at hmd
            exact fmtDate_shape m d y (by omega) (by omega) hy.1 hy.2
          · simp at h
        · simp at h
      · simp at h

/-- The first validated candidate has the right shape. -/
theorem firstValid_shape :
    ∀ (l : List (List Char × List Char × List Char)) (s : String),
      firstValid l = some s → dateShapeOK s = true := by
  intro l
  induction l with
  | nil => intro s h; simp [firstValid] at h
  | cons c cs ih =>
    intro s h
    unfold firstValid at h
    cases hv : validateCandidate c with
    | some s' =>
      rw [hv] at h
      injection h with h'
      rw [← h']
      exact validateCandidate_shape hv
    | none =>
      rw [hv] at h
      exact ih s h

/-- One step of the month loop, with the day and year values abstracted. -/
theorem monthStep_shape {m day year : Nat} (hm : m < 100)
    {rest : List ((List Char × List Char) × Nat)} {cs : List Char} {s : String}
    (h : (if (decide (1 ≤ day) && decide (day ≤ 31) && decide (1990 ≤ year) &&
            decide (year ≤ 2030)) = true
          then some (fmtDate m day year) else monthLoop rest cs) = some s)
    (ih : monthLoop rest cs = some s → dateShapeOK s = true) :
    dateShapeOK s = true := by
  split at h
  · rename_i hcond
    simp only [Bool.and_eq_true, decide_eq_true_eq] at hcond
    injection h with h'
    rw [← h']
    exact fmtDate_shape _ _ _ hm (by omega) (by omega) (by omega)
  · exact ih h

/-- A month-branch result has the right shape when every table month is
below 100. -/
theorem monthLoop_shape :
    ∀ (tbl : List ((List Char × List Char) × Nat)) (cs : List Char) (s : String),
      (∀ e ∈ tbl, e.2 < 100) → monthLoop tbl cs = some s → dateShapeOK s = true := by
  intro tbl
  induction tbl with
  | nil => intro cs s _ h; simp [monthLoop] at h
  | cons e rest ih =>
    intro cs s htbl h
    obtain ⟨⟨ab, fl⟩, m⟩ := e
    unfold monthLoop at h
    cases hs : monthSearch ab fl none cs with
    | none =>
      rw [hs] at h
      exact ih cs s (fun e he => htbl e (List.mem_cons_of_mem _ he)) h
    | some dy =>
      rw [hs] at h
      obtain ⟨g2, g3⟩ := dy
      simp only [] at h
      exact monthStep_shape (htbl _ (List.mem_cons_self _ _)) h
        (ih cs s (fun e he => htbl e (List.mem_cons_of_mem _ he)))

/-- C1: the date extractor is a total, deterministic function of the
filename string: for every input it returns either a string of shape
`MM.DD.YYYY` (two zero-padded digit pairs and a four-digit year in
`[1990, 2030]`) or exactly the sentinel `"Unknown Date"`; the embedding is
a total Lean function, so no exception is possible. -/
theorem extract_date_from_filename_total (fn : String) :
    extract_date_from_filename fn = "Unknown Date" ∨
    dateShapeOK (extract_date_from_filename fn) = true := by
  unfold extract_date_from_filename
  cases hfv : firstValid (extractCandidates fn.data) with
  | some s => exact Or.inr (firstValid_shape _ _ hfv)
  | none =>
    cases hml : monthLoop monthTable (fn.data.map Char.toLower) with
    | some s => exact Or.inr (monthLoop_shape _ _ _ (by decide) hml)
    | none => exact Or.inl rfl

/-- C5: the four concrete date-extraction vectors of the specification. -/
theorem extract_date_from_filename_vectors :
    extract_date_from_filename "Minutes 1.2.21 draft.pdf" = "01.02.2021" ∧
    extract_date_from_filename "minutes_03152023.pdf" = "03.15.2023" ∧
    extract_date_from_filename "March 5 2020 notes.pdf" = "03.05.2020" ∧
    extract_date_from_filename "no_date_here.pdf" = "Unknown Date" :=
  ⟨rfl, rfl, rfl, rfl⟩

/-- C2: the comment count is 0 whenever the classifier marks the span as
empty or administrative, and in particular on
`"No public comment this meeting."`. -/
theorem count_public_comments_zero_on_classified (t : String) :
    (has_no_comments t = true ∨ is_only_admin_content t = true →
      count_public_comments t = 0) ∧
    count_public_comments "No public comment this meeting." = 0 :=
  ⟨count_zero_of_flags t, by rfl⟩

/-- C2 witness at a concrete flagged span. -/
theorem count_public_comments_zero_on_classified_witness :
    has_no_comments "none today" = true ∧ count_public_comments "none today" = 0 :=
  ⟨by rfl, (count_public_comments_zero_on_classified "none today").1 (Or.inl (by rfl))⟩

/-- Shared helper: a cascade in which no pattern matches returns `None`. -/
theorem sectionLoop_all_none :
    ∀ (ps : List SectionPattern) (cs : List Char),
      (∀ p ∈ ps, searchSection p cs = none) → sectionLoop ps cs = none := by
  intro ps
  induction ps with
  | nil => intro cs _; rfl
  | cons p rest ih =>
    intro cs h
    unfold sectionLoop
    rw [h p (List.mem_cons_self _ _)]
    exact ih cs (fun q hq => h q (List.mem_cons_of_mem _ hq))

/-- C3: the section locator returns `None` on every text where no pattern
of the cascade matches anywhere, and on the concrete header/next-header
vector it returns exactly the span strictly between the two headers,
trimmed. -/
theorem extract_open_forum_section_locator :
    (∀ t : String, (∀ p ∈ sectionPatterns, searchSection p t.data = none) →
      extract_open_forum_section t = none) ∧
    extract_open_forum_section
        "V. Open Forum\nJohn asked about parking.\nVI. Discussion Items\n..." =
      some "John asked about parking." :=
  ⟨fun _ h => sectionLoop_all_none _ _ h, by rfl⟩

/-- C3 witness at a concrete marker-free text. -/
theorem extract_open_forum_section_locator_witness :
    extract_open_forum_section "hello" = none :=
  extract_open_forum_section_locator.1 "hello" (by decide)

/-- C9: an explicit no-comments phrase occurring anywhere word-bounded
(case-insensitively) forces a zero count, however much other text the span
holds. -/
theorem count_zero_of_contained_marker (t : String) (p : List Char)
    (hp : p ∈ noCommentPhrases) (hc : containsWordBounded p t.data = true) :
    count_public_comments t = 0 := by
  apply count_zero_of_flags
  left
  unfold has_no_comments
  have : noCommentPhrases.any (fun q => containsWordBounded q t.data) = true :=
    List.any_eq_true.mpr ⟨p, hp, hc⟩
  simp [this]

/-- C9 witness: the word `none` inside an otherwise substantive span. -/
theorem count_zero_of_contained_marker_witness :
    count_public_comments "There were none today." = 0 :=
  count_zero_of_contained_marker "There were none today." "none".data
    (by decide) (by rfl)

set_option maxRecDepth 8000 in
/-- C6 counterexample: a paragraph of 125 characters (25 of content, 100 of
trailing whitespace) is longer than 100 characters, yet `is_admin_paragraph`
discards it: the length gate reads the stripped text, which falls in the
short branch and matches the envelope-id pattern. -/
theorem is_admin_paragraph_long_counterexample :
    100 < ("docusign envelope id: abc".data ++ List.replicate 100 ' ').length ∧
    is_admin_paragraph ("docusign envelope id: abc".data ++ List.replicate 100 ' ') = true := by
  decide

/-- C6 (amended): the per-paragraph administrative check never discards a
paragraph whose *stripped* text is longer than 100 characters: the short
branch is skipped and both arms of the long branch return false. -/
theorem is_admin_paragraph_keeps_long (p : List Char)
    (h : 100 < (pyStrip p).length) : is_admin_paragraph p = false := by
  have hlen : ((pyStrip p).map Char.toLower).length = (pyStrip p).length :=
    List.length_map _ _
  simp only [is_admin_paragraph]
  rw [if_neg (by rw [hlen]; omega)]
  rw [if_pos (by rw [hlen]; omega)]
  split <;> rfl

/-- C6 witness at a concrete long paragraph. -/
theorem is_admin_paragraph_keeps_long_witness :
    100 < (pyStrip (List.replicate 101 'a')).length ∧
    is_admin_paragraph (List.replicate 101 'a') = false :=
  ⟨by decide, is_admin_paragraph_keeps_long _ (by decide)⟩

/-- Dropping a leading-whitespace run twice is the same as once. -/
theorem dropWhile_ws_idem (l : List Char) :
    (l.dropWhile isSpaceCh).dropWhile isSpaceCh = l.dropWhile isSpaceCh := by
  induction l with
  | nil => rfl
  | cons c cs ih =>
    by_cases h : isSpaceCh c = true
    · simpa [List.dropWhile_cons, h] using ih
    · simp [List.dropWhile_cons, h]

/-- Dropping a trailing-whitespace run twice is the same as once. -/
theorem trimRightWs_idem (l : List Char) :
    trimRightWs (trimRightWs l) = trimRightWs l := by
  induction l with
  | nil => rfl
  | cons c cs ih =>
    rw [trimRightWs]
    cases hr : trimRightWs cs with
    | nil =>
      by_cases h : isSpaceCh c = true
      · simp [h, trimRightWs]
      · simp [h, trimRightWs]
    | cons x xs =>
      rw [hr] at ih
      simp only []
      rw [trimRightWs, ih]

/-- A trimmed-left list is empty or starts with a non-whitespace
character. -/
theorem dropWhile_ws_head (l : List Char) :
    l.dropWhile isSpaceCh = [] ∨
    ∃ c cs, l.dropWhile isSpaceCh = c :: cs ∧ isSpaceCh c = false := by
  induction l with
  | nil => left; rfl
  | cons c cs ih =>
    by_cases h : isSpaceCh c = true
    · simpa [List.dropWhile_cons, h] using ih
    · right
      refine ⟨c, cs, by simp [List.dropWhile_cons, h], ?_⟩
      simpa using h

/-- Trimming on the right keeps the head character or empties the list. -/
theorem trimRightWs_headcases (c : Char) (cs : List Char) :
    trimRightWs (c :: cs) = [] ∨ ∃ t, trimRightWs (c :: cs) = c :: t := by
  rw [trimRightWs]
  cases trimRightWs cs with
  | nil => by_cases h : isSpaceCh c = true <;> simp [h]
  | cons x xs => right; exact ⟨x :: xs, rfl⟩

/-- Python `strip` is idempotent. -/
theorem pyStrip_idem (l : List Char) : pyStrip (pyStrip l) = pyStrip l := by
  unfold pyStrip
  rcases dropWhile_ws_head l with h | ⟨c, cs, h, hc⟩
  · rw [h]; rfl
  · rw [h]
    rcases trimRightWs_headcases c cs with h2 | ⟨t, h2⟩
    · rw [h2]; rfl
    · rw [h2, List.dropWhile_cons, if_neg (by simp [hc])]
      have h3 := trimRightWs_idem (c :: cs)
      rw [h2] at h3
      exact h3

/-- A paragraph passing all three filters with no speaker boundary inside
stands as exactly one comment unit. -/
theorem processPara_single (p : List Char) (hlen : 20 < (pyStrip p).length)
    (hpg : pageParaMatch (pyStrip p) = false)
    (had : is_admin_paragraph (pyStrip p) = false)
    (hs1 : splitPointsAux lookSpeaker1 0 none (pyStrip p) = [])
    (hs2 : splitPointsAux lookSpeaker2 0 none (pyStrip p) = []) :
    processPara p = [pyStrip p] := by
  have hne : pyStrip p ≠ [] := by
    intro h0
    rw [h0] at hlen
    simp at hlen
  unfold processPara
  rw [if_pos (by simp [hlen, hpg, had])]
  unfold split_by_clear_boundaries
  rw [hs1, hs2]
  simp only [List.append_nil, sortedUnique, List.isEmpty_nil, if_true]
  rw [pyStrip_idem]
  simp [List.isEmpty_iff, hne]

/-- C4 (amended): an input that splits into exactly two paragraphs, each
trimmed longer than 20 characters, neither matching the page/continued/end
line filter, neither administrative, with no clear speaker boundary inside
either, counts as 2 — provided the whole span neither carries an explicit
no-comment marker nor is classified admin-only (the two early exits of
`count_public_comments`). -/
theorem count_public_comments_two_paragraphs (t : String) (p1 p2 : List Char)
    (hsplit : splitParagraphs t.data = [p1, p2])
    (h1len : 20 < (pyStrip p1).length) (h2len : 20 < (pyStrip p2).length)
    (h1pg : pageParaMatch (pyStrip p1) = false)
    (h2pg : pageParaMatch (pyStrip p2) = false)
    (h1ad : is_admin_paragraph (pyStrip p1) = false)
    (h2ad : is_admin_paragraph (pyStrip p2) = false)
    (h1s1 : splitPointsAux lookSpeaker1 0 none (pyStrip p1) = [])
    (h1s2 : splitPointsAux lookSpeaker2 0 none (pyStrip p1) = [])
    (h2s1 : splitPointsAux lookSpeaker1 0 none (pyStrip p2) = [])
    (h2s2 : splitPointsAux lookSpeaker2 0 none (pyStrip p2) = [])
    (hnc : has_no_comments t = false) (hao : is_only_admin_content t = false) :
    count_public_comments t = 2 := by
  have ht : decide (t = "") = false := by
    apply decide_eq_false
    intro he
    rw [he] at hsplit
    simp [splitParagraphs, splitParasAux] at hsplit
  unfold count_public_comments
  rw [if_neg (by simp [ht, hnc])]
  rw [if_neg (by simp [hao])]
  rw [hsplit]
  simp [List.flatMap_cons, List.flatMap_nil,
    processPara_single p1 h1len h1pg h1ad h1s1 h1s2,
    processPara_single p2 h2len h2pg h2ad h2s1 h2s2]

/-- C4 counterexample: two substantive, non-administrative paragraphs with
no speaker boundary, but the first contains the word `none`, so the
explicit no-comments check fires and the count is 0, not 2. -/
theorem count_public_comments_two_paragraphs_counterexample :
    splitParagraphs ("Members said there were none of the issues raised today.\n\nBob spoke about the crosswalk on Main Street." : String).data =
      ["Members said there were none of the issues raised today.".data,
       "Bob spoke about the crosswalk on Main Street.".data] ∧
    20 < (pyStrip "Members said there were none of the issues raised today.".data).length ∧
    20 < (pyStrip "Bob spoke about the crosswalk on Main Street.".data).length ∧
    pageParaMatch (pyStrip "Members said there were none of the issues raised today.".data) = false ∧
    pageParaMatch (pyStrip "Bob spoke about the crosswalk on Main Street.".data) = false ∧
    is_admin_paragraph (pyStrip "Members said there were none of the issues raised today.".data) = false ∧
    is_admin_paragraph (pyStrip "Bob spoke about the crosswalk on Main Street.".data) = false ∧
    splitPointsAux lookSpeaker1 0 none (pyStrip "Members said there were none of the issues raised today.".data) = [] ∧
    splitPointsAux lookSpeaker2 0 none (pyStrip "Members said there were none of the issues raised today.".data) = [] ∧
    splitPointsAux lookSpeaker1 0 none (pyStrip "Bob spoke about the crosswalk on Main Street.".data) = [] ∧
    splitPointsAux lookSpeaker2 0 none (pyStrip "Bob spoke about the crosswalk on Main Street.".data) = [] ∧
    count_public_comments "Members said there were none of the issues raised today.\n\nBob spoke about the crosswalk on Main Street." = 0 :=
  ⟨rfl, by decide, by decide, rfl, rfl, rfl, rfl, rfl, rfl, rfl, rfl, rfl⟩

/-- C4 witness: a concrete two-paragraph span satisfying every premise of
the amended statement. -/
theorem count_public_comments_two_paragraphs_witness :
    count_public_comments "Alice asked about parking near the library today.\n\nBob spoke about the crosswalk on Main Street." = 2 :=
  count_public_comments_two_paragraphs
    "Alice asked about parking near the library today.\n\nBob spoke about the crosswalk on Main Street."
    "Alice asked about parking near the library today.".data
    "Bob spoke about the crosswalk on Main Street.".data
    rfl (by decide) (by decide) rfl rfl rfl rfl rfl rfl rfl rfl rfl rfl

/-- The state after `process_single_pdf` differs from the input state at
most in the skip log: no `processing_stats` counter moves. -/
theorem process_single_pdf_state (getText : String → String) (f : String)
    (st : AgentState) :
    ∃ sk, (process_single_pdf getText f st).2 = { st with skippedFiles := sk } := by
  unfold process_single_pdf
  simp only []
  split
  · exact ⟨_, rfl⟩
  · split
    · exact ⟨_, rfl⟩
    · split
      · exact ⟨_, rfl⟩
      · split
        · exact ⟨_, rfl⟩
        · exact ⟨st.skippedFiles, rfl⟩

/-- The yearly-statistics loop never touches the skip log. -/
theorem pswsAux_skippedFiles (getText : String → String) :
    ∀ (files : List String) (m : List (String × Nat)) (ys : YearStats)
      (st : AgentState),
      (pswsAux getText files m ys st).2.2.skippedFiles = st.skippedFiles := by
  intro files
  induction files with
  | nil => intro m ys st; rfl
  | cons f fs ih =>
    intro m ys st
    unfold pswsAux
    simp only []
    split
    · exact ih _ _ _
    · split
      · exact ih _ _ _
      · split
        · exact ih _ _ _
        · split
          · exact ih _ _ _
          · exact ih _ _ _

/-- C7 (amended): in `process_single_pdf` every per-file recoverable
failure is recorded as a `(filename, reason)` skip entry — empty text as
"Failed to extract text", a missing or empty Open Forum section as "No Open
Forum section found", a zero count as the no-comment reason — and the
outcome `(date, count?)` of a file does not depend on the accumulated
state, so other files are unaffected and the run continues; on the
yearly-statistics path (`process_single_year_folder_with_stats`) those
failures only move counters and no skip entry is ever recorded. -/
theorem process_single_pdf_skip_entries :
    (∀ (getText : String → String) (f : String) (st : AgentState),
      getText f = "" →
      process_single_pdf getText f st =
        ((extract_date_from_filename f, none),
         { st with skippedFiles :=
            st.skippedFiles ++ [(f, "Failed to extract text")] })) ∧
    (∀ (getText : String → String) (f : String) (st : AgentState),
      getText f ≠ "" →
      (extract_open_forum_section (getText f) = none ∨
       extract_open_forum_section (getText f) = some "") →
      process_single_pdf getText f st =
        ((extract_date_from_filename f, none),
         { st with skippedFiles :=
            st.skippedFiles ++ [(f, "No Open Forum section found")] })) ∧
    (∀ (getText : String → String) (f : String) (st : AgentState) (s : String),
      getText f ≠ "" → extract_open_forum_section (getText f) = some s →
      s ≠ "" → count_public_comments s = 0 →
      process_single_pdf getText f st =
        ((extract_date_from_filename f, none),
         { st with skippedFiles :=
            st.skippedFiles ++ [(f, "No comments or 'no comment' marker found")] })) ∧
    (∀ (getText : String → String) (f : String) (st : AgentState) (s : String),
      getText f ≠ "" → extract_open_forum_section (getText f) = some s →
      s ≠ "" → count_public_comments s ≠ 0 →
      process_single_pdf getText f st =
        ((extract_date_from_filename f, some (count_public_comments s)), st)) ∧
    (∀ (getText : String → String) (f : String) (st st' : AgentState),
      (process_single_pdf getText f st).1 = (process_single_pdf getText f st').1) ∧
    (∀ (getText : String → String) (files : List String) (st : AgentState),
      (process_single_year_folder_with_stats getText files st).2.2.skippedFiles =
        st.skippedFiles) := by
  refine ⟨?_, ?_, ?_, ?_, ?_, ?_⟩
  · intro getText f st h
    simp [process_single_pdf, h]
  · intro getText f st h hsec
    rcases hsec with hsec | hsec <;> simp [process_single_pdf, h, hsec]
  · intro getText f st s h hsec hs hc
    simp [process_single_pdf, h, hsec, hs, hc]
  · intro getText f st s h hsec hs hc
    simp [process_single_pdf, h, hsec, hs, hc]
  · intro getText f st st'
    unfold process_single_pdf
    simp only []
    split
    · rfl
    · split
      · rfl
      · split
        · rfl
        · split
          · rfl
          · rfl
  · intro getText files st
    exact pswsAux_skippedFiles getText files [] ⟨files.length, 0, 0, 0, 0⟩ st

/-- C7 witness: a file whose text extraction fails gets the skip entry. -/
theorem process_single_pdf_skip_entries_witness :
    process_single_pdf (fun _ => "") "a.pdf" initState =
      ((extract_date_from_filename "a.pdf", none),
       { initState with skippedFiles :=
          initState.skippedFiles ++ [("a.pdf", "Failed to extract text")] }) :=
  process_single_pdf_skip_entries.1 (fun _ => "") "a.pdf" initState rfl

/-- C7 counterexample: on the yearly-statistics path a file whose text
retrieval fails is counted (here in `meetings_no_open_forum`) but no
`(filename, reason)` skip entry is recorded — `skipped_files` stays empty,
refuting the claim that every per-file recoverable failure of a run is
recorded there. -/
theorem process_stats_path_records_no_skip_counterexample :
    (process_single_year_folder_with_stats (fun _ => "") ["a.pdf"] initState).2.1 =
      ⟨1, 0, 0, 1, 0⟩ ∧
    (process_single_year_folder_with_stats (fun _ => "") ["a.pdf"] initState).2.2.skippedFiles = [] :=
  ⟨rfl, rfl⟩

/-- The flat-collection loop leaves `total_files` alone and moves exactly
one of `processed_files`/`skipped_files` per file. -/
theorem psyfAux_stats (getText : String → String) :
    ∀ (files : List String) (m : List (String × Nat)) (st : AgentState),
      (psyfAux getText files m st).2.statTotalFiles = st.statTotalFiles ∧
      (psyfAux getText files m st).2.statProcessedFiles +
          (psyfAux getText files m st).2.statSkippedFiles =
        st.statProcessedFiles + st.statSkippedFiles + files.length := by
  intro files
  induction files with
  | nil => intro m st; exact ⟨rfl, by simp [psyfAux]⟩
  | cons f fs ih =>
    intro m st
    unfold psyfAux
    simp only []
    obtain ⟨sk, hsk⟩ := process_single_pdf_state getText f st
    cases hr : (process_single_pdf getText f st).1.2 with
    | some c =>
      simp only []
      rw [hsk]
      dsimp only
      refine ⟨(ih _ _).1, ?_⟩
      rw [(ih _ _).2]
      dsimp only
      rw [List.length_cons]
      omega
    | none =>
      simp only []
      rw [hsk]
      dsimp only
      refine ⟨(ih _ _).1, ?_⟩
      rw [(ih _ _).2]
      dsimp only
      rw [List.length_cons]
      omega

/-- C10: in the flat-collection fallback (no `YYYY-YYYY` subdirectory, the
`"All Files"` bucket) a run started from the freshly initialised state
leaves `total_files` at 0 — the assignment happens only on the
yearly-folders path — while `processed_files + skipped_files` still counts
every file, so with at least one file `total_files` differs from
`processed_files + skipped_files`. -/
theorem process_folder_flat_total_files (getText : String → String)
    (layout : FolderLayout)
    (hny : ∀ p ∈ layout.subdirs, matchYearDir p.1 = false) :
    (process_folder getText layout initState).2.2.statTotalFiles = 0 ∧
    (process_folder getText layout initState).2.2.statProcessedFiles +
        (process_folder getText layout initState).2.2.statSkippedFiles =
      layout.rootFiles.length ∧
    (layout.rootFiles ≠ [] →
      (process_folder getText layout initState).2.2.statTotalFiles ≠
        (process_folder getText layout initState).2.2.statProcessedFiles +
          (process_folder getText layout initState).2.2.statSkippedFiles) := by
  have hfil : layout.subdirs.filter (fun p => matchYearDir p.1) = [] :=
    List.filter_eq_nil_iff.mpr (fun a ha => by simp [hny a ha])
  unfold process_folder
  rw [hfil]
  simp only [List.isEmpty_nil, if_true]
  unfold process_single_year_folder
  obtain ⟨h1, h2⟩ := psyfAux_stats getText layout.rootFiles [] initState
  refine ⟨h1, ?_, ?_⟩
  · rw [h2]
    simp [initState]
  · intro hne hEq
    rw [h1, h2] at hEq
    have : layout.rootFiles.length = 0 := by
      simpa [initState] using hEq.symm
    exact hne (List.length_eq_zero.mp this)

/-- C10 witness: a run over one unprocessable root file. -/
theorem process_folder_flat_total_files_witness :
    (process_folder (fun _ => "") ⟨[("notes", none)], ["a.pdf"]⟩ initState).2.2.statTotalFiles ≠
      (process_folder (fun _ => "") ⟨[("notes", none)], ["a.pdf"]⟩ initState).2.2.statProcessedFiles +
        (process_folder (fun _ => "") ⟨[("notes", none)], ["a.pdf"]⟩ initState).2.2.statSkippedFiles :=
  (process_folder_flat_total_files (fun _ => "") ⟨[("notes", none)], ["a.pdf"]⟩
    (by decide)).2.2 (by decide)

/-- Consuming an escaped quoted body and its closing quote restores the
field; after a written field the next character is a separator, never a
quote. -/
theorem parseLoop_quoted (f : List Char) :
    ∀ (rest : List Char), rest.head? ≠ some '"' →
      ∀ (fld : List Char) (row : List (List Char)) (rows : List (List (List Char))),
        parseLoop (escQ f ++ '"' :: rest) true fld row rows =
          parseLoop rest false (fld ++ f) row rows := by
  induction f with
  | nil =>
    intro rest hr fld row rows
    simp only [escQ, List.nil_append, List.append_nil]
    cases rest with
    | nil => simp [parseLoop]
    | cons c rest' =>
      have hc : c ≠ '"' := by
        intro h
        exact hr (by simp [h])
      simp [parseLoop, hc]
  | cons g f' ih =>
    intro rest hr fld row rows
    by_cases hg : g = '"'
    · subst hg
      have hesc : escQ ('"' :: f') = '"' :: '"' :: escQ f' := by simp [escQ]
      have step : parseLoop ('"' :: '"' :: (escQ f' ++ '"' :: rest)) true fld row rows =
          parseLoop (escQ f' ++ '"' :: rest) true (fld ++ ['"']) row rows := by
        simp [parseLoop]
      rw [hesc, List.cons_append, List.cons_append, step, ih rest hr]
      simp
    · have hesc : escQ (g :: f') = g :: escQ f' := by simp [escQ, hg]
      have step : parseLoop (g :: (escQ f' ++ '"' :: rest)) true fld row rows =
          parseLoop (escQ f' ++ '"' :: rest) true (fld ++ [g]) row rows := by
        simp [parseLoop, hg]
      rw [hesc, List.cons_append, step, ih rest hr]
      simp

/-- Clean field characters are copied verbatim by the parser. -/
theorem parseLoop_unquoted (f : List Char) :
    ∀ (rest fld : List Char) (row : List (List Char)) (rows : List (List (List Char))),
      (∀ c ∈ f, needsQuoteCh c = false) →
      parseLoop (f ++ rest) false fld row rows =
        parseLoop rest false (fld ++ f) row rows := by
  induction f with
  | nil => intro rest fld row rows _; simp
  | cons c f' ih =>
    intro rest fld row rows h
    have hc := h c (List.mem_cons_self _ _)
    have h1 : c ≠ ',' := by intro he; subst he; simp [needsQuoteCh] at hc
    have h2 : c ≠ '"' := by intro he; subst he; simp [needsQuoteCh] at hc
    have h3 : c ≠ '\r' := by intro he; subst he; simp [needsQuoteCh] at hc
    have step : parseLoop ((c :: f') ++ rest) false fld row rows =
        parseLoop (f' ++ rest) false (fld ++ [c]) row rows := by
      simp [parseLoop, h1, h2, h3]
    rw [step, ih rest (fld ++ [c]) row rows (fun x hx => h x (List.mem_cons_of_mem _ hx))]
    simp

/-- One serialised field followed by a separator parses back to itself. -/
theorem parseLoop_field (f rest : List Char)
    (hr : rest = [] ∨ rest.head? = some ',' ∨ rest.head? = some '\r')
    (fld : List Char) (row : List (List Char)) (rows : List (List (List Char))) :
    parseLoop (writeField f ++ rest) false fld row rows =
      parseLoop rest false (fld ++ f) row rows := by
  have hnq : rest.head? ≠ some '"' := by
    rcases hr with h | h | h <;> simp [h]
  unfold writeField
  by_cases hq : f.any needsQuoteCh = true
  · rw [if_pos hq]
    have hassoc : ('"' :: (escQ f ++ ['"'])) ++ rest = '"' :: (escQ f ++ '"' :: rest) := by
      simp
    rw [hassoc]
    have step : parseLoop ('"' :: (escQ f ++ '"' :: rest)) false fld row rows =
        parseLoop (escQ f ++ '"' :: rest) true fld row rows := by
      simp [parseLoop]
    rw [step]
    exact parseLoop_quoted f rest hnq fld row rows
  · rw [if_neg hq]
    refine parseLoop_unquoted f rest fld row rows ?_
    intro x hx
    rcases hb : needsQuoteCh x with _ | _
    · rfl
    · exact absurd (List.any_eq_true.mpr ⟨x, hx, hb⟩) hq

/-- One serialised row parses back to its field list. -/
theorem parseLoop_row (fs : List (List Char)) (h : fs ≠ []) :
    ∀ (rest : List Char) (row : List (List Char)) (rows : List (List (List Char))),
      parseLoop ((joinFields fs ++ ['\r', '\n']) ++ rest) false [] row rows =
        parseLoop rest false [] [] (rows ++ [row ++ fs]) := by
  induction fs with
  | nil => exact absurd rfl h
  | cons f fs' ih =>
    intro rest row rows
    cases fs' with
    | nil =>
      have hassoc : ((joinFields [f] ++ ['\r', '\n']) ++ rest) =
          writeField f ++ ('\r' :: '\n' :: rest) := by
        simp [joinFields]
      rw [hassoc,
        parseLoop_field f ('\r' :: '\n' :: rest) (Or.inr (Or.inr rfl)) [] row rows]
      simp [parseLoop]
    | cons f2 fs'' =>
      have hassoc : ((joinFields (f :: f2 :: fs'') ++ ['\r', '\n']) ++ rest) =
          writeField f ++ (',' :: ((joinFields (f2 :: fs'') ++ ['\r', '\n']) ++ rest)) := by
        simp [joinFields]
      rw [hassoc,
        parseLoop_field f (',' :: ((joinFields (f2 :: fs'') ++ ['\r', '\n']) ++ rest))
          (Or.inr (Or.inl rfl)) [] row rows]
      have step : parseLoop (',' :: ((joinFields (f2 :: fs'') ++ ['\r', '\n']) ++ rest))
            false ([] ++ f) row rows =
          parseLoop ((joinFields (f2 :: fs'') ++ ['\r', '\n']) ++ rest)
            false [] (row ++ [[] ++ f]) rows := by
        simp [parseLoop]
      rw [step, ih (by simp) rest (row ++ [[] ++ f]) rows]
      simp

/-- A whole serialised file parses back to its rows. -/
theorem parseLoop_writeRows (rws : List (List (List Char))) :
    (∀ r ∈ rws, r ≠ []) → ∀ rows,
      parseLoop (writeRowsCsv rws) false [] [] rows = rows ++ rws := by
  induction rws with
  | nil => intro _ rows; simp [writeRowsCsv, parseLoop]
  | cons r rws' ih =>
    intro h rows
    have hr : r ≠ [] := h r (List.mem_cons_self _ _)
    have hassoc : writeRowsCsv (r :: rws') =
        (joinFields r ++ ['\r', '\n']) ++ writeRowsCsv rws' := by
      simp [writeRowsCsv, writeRow]
    rw [hassoc, parseLoop_row r hr (writeRowsCsv rws') [] rows,
      ih (fun x hx => h x (List.mem_cons_of_mem _ hx)) (rows ++ [[] ++ r])]
    simp

/-- The CSV state machine inverts the writer on nonempty rows. -/
theorem parseCsv_writeRows (rws : List (List (List Char)))
    (h : ∀ r ∈ rws, r ≠ []) : parseCsv (writeRowsCsv rws) = rws := by
  have := parseLoop_writeRows rws h []
  simpa [parseCsv] using this

/-- Every exported row is nonempty (the header and each three-field data
row). -/
theorem exportRows_nonempty (yearly : List (String × List (String × Nat))) :
    ∀ r ∈ exportRows yearly, r ≠ [] := by
  intro r hr
  unfold exportRows at hr
  rcases List.mem_cons.mp hr with h | h
  · subst h; simp [csvHeader]
  · obtain ⟨y, _, hmem⟩ := List.mem_flatMap.mp h
    cases hlk : lookupS yearly y with
    | none => rw [hlk] at hmem; simp at hmem
    | some m =>
      rw [hlk] at hmem
      obtain ⟨dc, _, hdc⟩ := List.mem_map.mp hmem
      rw [← hdc]
      simp

/-- The fuelled digit expander agrees with the reference expansion. -/
theorem toDigitsCore_eq_myRepr :
    ∀ (fuel n : Nat) (ds : List Char), n < fuel →
      Nat.toDigitsCore 10 fuel n ds = myRepr n ++ ds := by
  intro fuel
  induction fuel with
  | zero => intro n ds h; omega
  | succ fu ih =>
    intro n ds h
    rw [Nat.toDigitsCore]
    by_cases h0 : n / 10 = 0
    · have hn : n < 10 := by omega
      rw [if_pos h0, myRepr, if_pos hn, Nat.mod_eq_of_lt hn]
      rfl
    · have h10 : 10 ≤ n := by omega
      have hrn : myRepr n = myRepr (n / 10) ++ [Nat.digitChar (n % 10)] := by
        rw [myRepr, if_neg (by omega)]
      rw [if_neg h0, ih (n / 10) (Nat.digitChar (n % 10) :: ds) (by omega), hrn]
      simp

/-- `Nat.repr` produces exactly the reference expansion. -/
theorem repr_data_eq_myRepr (n : Nat) : (Nat.repr n).data = myRepr n := by
  show Nat.toDigitsCore 10 (n + 1) n [] = myRepr n
  rw [toDigitsCore_eq_myRepr (n + 1) n [] (by omega), List.append_nil]

/-- Digit characters round-trip through the digit-value map. -/
theorem digitChar_facts : ∀ r < 10,
    isDigitCh (Nat.digitChar r) = true ∧
    (Nat.digitChar r).toNat - '0'.toNat = r := by
  decide

/-- The reference expansion is a nonempty digit string. -/
theorem myRepr_all_digits (n : Nat) :
    myRepr n ≠ [] ∧ (myRepr n).all isDigitCh = true := by
  induction n using Nat.strong_induction_on with
  | _ n ih =>
    rw [myRepr]
    by_cases h : n < 10
    · rw [if_pos h]
      exact ⟨by simp, by simp [(digitChar_facts n h).1]⟩
    · rw [if_neg h]
      have hd := ih (n / 10) (by omega)
      refine ⟨by simp, ?_⟩
      rw [List.all_append]
      simp [hd.2, (digitChar_facts (n % 10) (by omega)).1]

/-- Folding one more digit multiplies by ten and adds its value. -/
theorem toNatDigits_append_single (xs : List Char) (c : Char) :
    toNatDigits (xs ++ [c]) = 10 * toNatDigits xs + (c.toNat - '0'.toNat) := by
  unfold toNatDigits
  rw [List.foldl_append]
  rfl

/-- Parsing the reference expansion gives the number back. -/
theorem toNatDigits_myRepr (n : Nat) : toNatDigits (myRepr n) = n := by
  induction n using Nat.strong_induction_on with
  | _ n ih =>
    rw [myRepr]
    by_cases h : n < 10
    · rw [if_pos h]
      have hv := (digitChar_facts n h).2
      show 10 * 0 + ((Nat.digitChar n).toNat - '0'.toNat) = n
      omega
    · rw [if_neg h, toNatDigits_append_single, ih (n / 10) (by omega),
        (digitChar_facts (n % 10) (by omega)).2]
      omega

/-- `int(str(count))` is the identity, in embedded form. -/
theorem parseNatOpt_repr (n : Nat) : parseNatOpt (Nat.repr n).data = some n := by
  rw [repr_data_eq_myRepr]
  obtain ⟨hne, hall⟩ := myRepr_all_digits n
  unfold parseNatOpt
  rw [if_neg (by simp [hne]), if_pos hall, toNatDigits_myRepr]

/-- Stable insertion permutes. -/
theorem insertLe_perm (le : α → α → Bool) (a : α) :
    ∀ l : List α, List.Perm (insertLe le a l) (a :: l) := by
  intro l
  induction l with
  | nil => exact List.Perm.refl _
  | cons b bs ih =>
    unfold insertLe
    split
    · exact List.Perm.refl _
    · exact (ih.cons b).trans (List.Perm.swap a b bs)

/-- Insertion sort permutes. -/
theorem insertionSort_perm (le : α → α → Bool) :
    ∀ l : List α, List.Perm (insertionSort le l) l := by
  intro l
  induction l with
  | nil => exact List.Perm.refl _
  | cons a as ih =>
    exact (insertLe_perm le a (insertionSort le as)).trans (ih.cons a)

/-- Sorting preserves membership. -/
theorem mem_insertionSort (le : α → α → Bool) (l : List α) (x : α) :
    x ∈ insertionSort le l ↔ x ∈ l :=
  (insertionSort_perm le l).mem_iff

/-- Under unique keys, dict lookup and membership coincide. -/
theorem lookupS_eq_some_iff {α : Type} (y : String) (m : α) :
    ∀ yearly : List (String × α), (yearly.map (fun p => p.1)).Nodup →
      (lookupS yearly y = some m ↔ (y, m) ∈ yearly) := by
  intro yearly
  induction yearly with
  | nil => intro _; simp [lookupS]
  | cons p rest ih =>
    intro hnd
    obtain ⟨k, v⟩ := p
    rw [List.map_cons, List.nodup_cons] at hnd
    simp only [lookupS]
    by_cases hk : k = y
    · subst hk
      rw [if_pos rfl]
      constructor
      · intro h
        injection h with h'
        subst h'
        exact List.mem_cons_self _ _
      · intro h
        rcases List.mem_cons.mp h with h | h
        · injection h with h1 h2
          rw [h2]
        · exact absurd (List.mem_map.mpr ⟨(k, m), h, rfl⟩) hnd.1
    · rw [if_neg hk, ih hnd.2]
      constructor
      · intro h
        exact List.mem_cons_of_mem _ h
      · intro h
        rcases List.mem_cons.mp h with h | h
        · injection h with h1 h2
          exact absurd h1.symm hk
        · exact h

/-- C8: CSV export is a lossless pure serialization — for every
year-to-date-to-count mapping (unique year keys, as a Python dict
guarantees), exporting with header `Academic_Year,Date,Comment_Count`, one
row per triple, rows ordered by year then date string, and re-parsing the
CSV text reconstructs exactly the set of `(year, date, count)` triples. -/
theorem export_to_csv_roundtrip (yearly : List (String × List (String × Nat)))
    (hnd : (yearly.map (fun p => p.1)).Nodup) (y d : String) (c : Nat) :
    ((y.data, d.data, c) ∈ reparseTriples (export_to_csv yearly)) ↔
      ∃ m, (y, m) ∈ yearly ∧ (d, c) ∈ m := by
  have hrows : parseCsv (export_to_csv yearly) = exportRows yearly :=
    parseCsv_writeRows _ (exportRows_nonempty yearly)
  unfold reparseTriples
  rw [hrows]
  unfold exportRows
  rw [List.drop_succ_cons, List.drop_zero]
  constructor
  · intro h
    obtain ⟨row, hrow, hdec⟩ := List.mem_filterMap.mp h
    obtain ⟨y', hy', hmem⟩ := List.mem_flatMap.mp hrow
    cases hlk : lookupS yearly y' with
    | none => rw [hlk] at hmem; simp at hmem
    | some m =>
      rw [hlk] at hmem
      obtain ⟨dc, hdcm, hrow'⟩ := List.mem_map.mp hmem
      rw [← hrow'] at hdec
      rw [show decodeRow [y'.data, dc.1.data, (Nat.repr dc.2).data] =
            some (y'.data, dc.1.data, dc.2) by
          simp [decodeRow, parseNatOpt_repr]] at hdec
      injection hdec with hdec'
      have hy2 : y'.data = y.data := congrArg (fun t => t.1) hdec'
      have hd2 : dc.1.data = d.data := congrArg (fun t => t.2.1) hdec'
      have hc2 : dc.2 = c := congrArg (fun t => t.2.2) hdec'
      have hyy : y' = y := String.ext hy2
      have hdd : dc.1 = d := String.ext hd2
      rw [hyy] at hlk
      refine ⟨m, (lookupS_eq_some_iff y m yearly hnd).mp hlk, ?_⟩
      have : dc ∈ m := (mem_insertionSort _ m dc).mp hdcm
      rw [← hdd, ← hc2]
      simpa using this
  · rintro ⟨m, hym, hdc⟩
    apply List.mem_filterMap.mpr
    refine ⟨[y.data, d.data, (Nat.repr c).data], ?_, by
      simp [decodeRow, parseNatOpt_repr]⟩
    apply List.mem_flatMap.mpr
    refine ⟨y, ?_, ?_⟩
    · rw [mem_insertionSort]
      exact List.mem_map.mpr ⟨(y, m), hym, rfl⟩
    · rw [(lookupS_eq_some_iff y m yearly hnd).mpr hym]
      exact List.mem_map.mpr ⟨(d, c), (mem_insertionSort _ m (d, c)).mpr hdc, rfl⟩

/-- C8 witness: a concrete one-year bucket survives the round trip. -/
theorem export_to_csv_roundtrip_witness :
    ("2022-2023".data, "01.02.2023".data, 3) ∈
      reparseTriples (export_to_csv [("2022-2023", [("01.02.2023", 3)])]) :=
  (export_to_csv_roundtrip [("2022-2023", [("01.02.2023", 3)])] (by decide)
    "2022-2023" "01.02.2023" 3).mpr ⟨[("01.02.2023", 3)], by decide, by decide⟩

end AIMinutes
